import Mathlib

/-!
Verification of the spin-cli runnable supervisor core against its
natural-language specification.  The definitions below are shallow
embeddings of the TypeScript source:

* `OutputBuffer`   — src/src/runnables/helpers.ts (class OutputBuffer)
* `stripAnsi`, `addOutput`, exit classification, `start`, `startAll`,
  `getTopologicalOrder`, the dependency watcher
                   — src/src/runnables/manager.ts (second, current variant)
* `resolveTargets`, `findSimilar`, `levenshtein`
                   — src/src/config/loader.ts
* `scriptRunnerIngest` — src/src/scripts/runner.ts (class ScriptRunner)

JavaScript `Map`s and objects are modelled as association lists,
JS numbers as `Nat`/`Int` where the source only ever holds integers.
-/

/-! ## Ring buffer (src/src/runnables/helpers.ts, class OutputBuffer) -/

/-- State of `OutputBuffer`: `buffer` is the backing JS array (holes of
`new Array(capacity)` modelled as `""`, never observed), together with
`start`, `size`, `capacity` exactly as in the class. -/
structure OutputBuffer where
  buffer : List String
  start : Nat
  size : Nat
  capacity : Nat
deriving Repr, DecidableEq

/-- `constructor(capacity)`: `this.capacity = Math.max(0, capacity)`;
the backing array has `capacity` slots. -/
def OutputBuffer.create (capacity : Int) : OutputBuffer :=
  { buffer := List.replicate capacity.toNat ""
    start := 0
    size := 0
    capacity := capacity.toNat }

/-- `clear()`. -/
def OutputBuffer.clear (b : OutputBuffer) : OutputBuffer :=
  { b with start := 0, size := 0 }

/-- `push(line)`. -/
def OutputBuffer.push (b : OutputBuffer) (line : String) : OutputBuffer :=
  if b.capacity = 0 then b
  else if b.size < b.capacity then
    { b with
      buffer := b.buffer.set ((b.start + b.size) % b.capacity) line
      size := b.size + 1 }
  else
    { b with
      buffer := b.buffer.set b.start line
      start := (b.start + 1) % b.capacity }

/-- `toArray()`. -/
def OutputBuffer.toArray (b : OutputBuffer) : List String :=
  if b.size = 0 then []
  else if b.size = b.capacity ∧ b.start = 0 then b.buffer
  else (List.range b.size).map fun i => b.buffer.getD ((b.start + i) % b.capacity) ""

/-- `tail(count)` (the source clamps `count` at `0` via `Math.max`;
a `Nat` argument renders the same values). -/
def OutputBuffer.tail (b : OutputBuffer) (count : Nat) : List String :=
  if b.size = 0 then []
  else
    let len := min b.size count
    if len = 0 then []
    else
      (List.range len).map fun i =>
        b.buffer.getD (((b.start + b.size - len + b.capacity) % b.capacity + i) % b.capacity) ""

/-- `get length()`. -/
def OutputBuffer.length (b : OutputBuffer) : Nat := b.size

/-- The sequence of stored entries in insertion order, read off the
concrete representation. -/
def OutputBuffer.model (b : OutputBuffer) : List String :=
  (List.range b.size).map fun i => b.buffer.getD ((b.start + i) % b.capacity) ""

/-- Representation invariant maintained by every `OutputBuffer` method. -/
structure OutputBuffer.WF (b : OutputBuffer) : Prop where
  buffer_len : b.buffer.length = b.capacity
  size_le : b.size ≤ b.capacity
  start_ok : b.start < b.capacity ∨ (b.capacity = 0 ∧ b.start = 0)

/-- Operations a client can perform on a buffer after construction. -/
inductive BufOp where
  | push (line : String)
  | clear
deriving Repr, DecidableEq

def OutputBuffer.applyOp (b : OutputBuffer) : BufOp → OutputBuffer
  | .push line => b.push line
  | .clear => b.clear

def OutputBuffer.applyOps (b : OutputBuffer) (ops : List BufOp) : OutputBuffer :=
  ops.foldl OutputBuffer.applyOp b

/-- Abstract FIFO push, following the specification's words: a push
appends; a push above capacity drops the oldest entry; a capacity-0
buffer discards every push. -/
def specFifoPush (cap : Nat) (l : List String) (x : String) : List String :=
  if cap = 0 then l
  else if l.length < cap then l ++ [x]
  else l.drop 1 ++ [x]

/-- Abstract contents after a sequence of operations, following the
specification's words (`clear` empties the buffer). -/
def specContents (cap : Nat) (ops : List BufOp) : List String :=
  ops.foldl
    (fun l op =>
      match op with
      | .push x => specFifoPush cap l x
      | .clear => []) []

/-! ## Association lists (JS `Map` / object with string keys) -/

def alGet {α : Type} (l : List (String × α)) (k : String) : Option α :=
  (l.find? fun p => p.1 == k).map Prod.snd

/-- `Map.set` / object property assignment: update in place, append if new. -/
def alSet {α : Type} (l : List (String × α)) (k : String) (v : α) : List (String × α) :=
  match l with
  | [] => [(k, v)]
  | p :: rest => if p.1 == k then (k, v) :: rest else p :: alSet rest k v

/-- `graph.get(k)?.push(v)`: append to an existing entry, no-op when absent. -/
def alPush (l : List (String × List String)) (k : String) (v : String) :
    List (String × List String) :=
  match l with
  | [] => []
  | p :: rest => if p.1 == k then (p.1, p.2 ++ [v]) :: rest else p :: alPush rest k v

/-! ## ANSI stripping (src/src/runnables/manager.ts, `stripAnsi`)

The source removes every occurrence of the regular expression
`\x1b\[[0-9;]*m` (SGR colour sequences).  The scanner below removes
leftmost matches one at a time, which renders the same function; the
fuel argument only bounds recursion and is always sufficient
(`sgrStripGo_fuel`). -/

def ansiEsc : Char := Char.ofNat 27

def isSgrParamChar (c : Char) : Bool := c.isDigit || c = ';'

/-- Attempt to match `\[[0-9;]*m` at the head; on success return the
remainder after the match. -/
def sgrMatchRest (rest : List Char) : Option (List Char) :=
  match rest with
  | c :: r2 =>
    if c = '[' then
      match r2.dropWhile isSgrParamChar with
      | m :: r3 => if m = 'm' then some r3 else none
      | [] => none
    else none
  | [] => none

def sgrStripGo : Nat → List Char → List Char
  | 0, l => l
  | _ + 1, [] => []
  | fuel + 1, c :: rest =>
    if c = ansiEsc then
      match sgrMatchRest rest with
      | some r3 => sgrStripGo fuel r3
      | none => c :: sgrStripGo fuel rest
    else c :: sgrStripGo fuel rest

def stripAnsi (s : String) : String := ⟨sgrStripGo s.data.length s.data⟩

/-- An SGR colour sequence `ESC [ <params> m`. -/
def mkSgrSeq (params : List Char) : String := ⟨ansiEsc :: '[' :: (params ++ ['m'])⟩

/-! ### Spec-level ANSI stripping

The specification speaks of stripping "ANSI escape sequences" in
general.  The definition below follows the spec's words, removing every
ECMA-48 CSI sequence `ESC [ <params> <intermediates> <final>`; it is
used to compare the source's SGR-only `stripAnsi` against the
specified behaviour. -/

def isCsiParamByte (c : Char) : Bool := 0x30 ≤ c.toNat && c.toNat ≤ 0x3F

def isCsiIntermediateByte (c : Char) : Bool := 0x20 ≤ c.toNat && c.toNat ≤ 0x2F

def isCsiFinalByte (c : Char) : Bool := 0x40 ≤ c.toNat && c.toNat ≤ 0x7E

def csiMatchRest (rest : List Char) : Option (List Char) :=
  match rest with
  | c :: r2 =>
    if c = '[' then
      match (r2.dropWhile isCsiParamByte).dropWhile isCsiIntermediateByte with
      | f :: r3 => if isCsiFinalByte f then some r3 else none
      | [] => none
    else none
  | [] => none

def csiStripGo : Nat → List Char → List Char
  | 0, l => l
  | _ + 1, [] => []
  | fuel + 1, c :: rest =>
    if c = ansiEsc then
      match csiMatchRest rest with
      | some r3 => csiStripGo fuel r3
      | none => c :: csiStripGo fuel rest
    else c :: csiStripGo fuel rest

def stripAnsiSpec (s : String) : String := ⟨csiStripGo s.data.length s.data⟩

/-! ## Runnable manager data model (src/src/types.ts, src/src/runnables/manager.ts) -/

inductive RunnableStatus where
  | stopped
  | waiting
  | starting
  | running
  | error
deriving Repr, DecidableEq

inductive StreamKind where
  | stdout
  | stderr
deriving Repr, DecidableEq

/-- A runnable definition from the config (fields relevant to the
verified operations; `name` only carries a display label). -/
structure RunnableDefinition where
  command : String
  cwd : Option String := none
  env : List (String × String) := []
  dependsOn : List String := []
  readyWhen : Option (String → Bool) := none

/-- A mutable runnable instance owned by the manager.  `process` records
whether a child-process handle is present (`instance.process !== null`);
`startedAt` and timers are omitted, they carry no claim-relevant state. -/
structure RunnableInstance where
  definition : RunnableDefinition
  status : RunnableStatus
  error : Option String
  process : Bool
  waitingFor : Option (List String)

structure RunnableBuffers where
  stdout : OutputBuffer
  stderr : OutputBuffer
  output : OutputBuffer

structure SpinConfig where
  runnables : List (String × RunnableDefinition)
  groups : List (String × List String) := []
  defaultsEnv : List (String × String) := []
  defaultsMaxOutputLines : Option Int := none

structure ManagerState where
  instances : List (String × RunnableInstance)
  outputBuffers : List (String × RunnableBuffers)

inductive ManagerEvent where
  | statusChange (id : String) (status : RunnableStatus) (error : Option String)
  | output (id : String) (line : String) (stream : StreamKind)
deriving Repr, DecidableEq

/-- `this.maxOutputLines = this.config.defaults?.maxOutputLines ?? MAX_OUTPUT_LINES`. -/
def managerMaxOutputLines (config : SpinConfig) : Int :=
  config.defaultsMaxOutputLines.getD 1000

/-- `init(ids)`: create instances (status `stopped`, no process) and
fresh output buffers for every id that has a config definition. -/
def initManager (config : SpinConfig) (ids : List String) : ManagerState :=
  ids.foldl
    (fun st id =>
      match alGet config.runnables id with
      | none => st
      | some d =>
        { instances := alSet st.instances id
            { definition := d
              status := .stopped
              error := none
              process := false
              waitingFor := none }
          outputBuffers := alSet st.outputBuffers id
            { stdout := OutputBuffer.create (managerMaxOutputLines config)
              stderr := OutputBuffer.create (managerMaxOutputLines config)
              output := OutputBuffer.create (managerMaxOutputLines config) } })
    { instances := [], outputBuffers := [] }

/-- `setStatus(id, status, error?)`: update the instance and emit
`status-change`. -/
def setStatusFn (st : ManagerState) (id : String) (status : RunnableStatus)
    (error : Option String) : ManagerState × List ManagerEvent :=
  match alGet st.instances id with
  | none => (st, [])
  | some inst =>
    ({ st with instances := (alSet st.instances id
        { inst with status := status, error := error }) },
     [.statusChange id status error])

def statusOf (st : ManagerState) (id : String) : Option RunnableStatus :=
  (alGet st.instances id).map RunnableInstance.status

def errorOf (st : ManagerState) (id : String) : Option (Option String) :=
  (alGet st.instances id).map RunnableInstance.error

def processOf (st : ManagerState) (id : String) : Option Bool :=
  (alGet st.instances id).map RunnableInstance.process

def waitingForOf (st : ManagerState) (id : String) : Option (Option (List String)) :=
  (alGet st.instances id).map RunnableInstance.waitingFor

/-- `getOutputLines(id, 'all')` (no limit): the combined buffer's
contents. -/
def getOutputLinesAll (st : ManagerState) (id : String) : List String :=
  match alGet st.outputBuffers id with
  | none => []
  | some bufs => bufs.output.toArray

/-- `addOutput(id, line, stream)`: push to the stream buffer and the
combined buffer, emit `output`, then (while `starting`, with a
`readyWhen`) evaluate the predicate on the ANSI-stripped concatenation
of the combined buffer and transition to `running` on success. -/
def addOutput (st : ManagerState) (id line : String) (stream : StreamKind) :
    ManagerState × List ManagerEvent :=
  match alGet st.instances id with
  | none => (st, [])
  | some inst =>
    match alGet st.outputBuffers id with
    | none => (st, [])
    | some bufs =>
      let bufs1 :=
        match stream with
        | .stdout => { bufs with stdout := bufs.stdout.push line }
        | .stderr => { bufs with stderr := bufs.stderr.push line }
      let bufs2 := { bufs1 with output := bufs1.output.push line }
      let st1 := { st with outputBuffers := alSet st.outputBuffers id bufs2 }
      if inst.status = .starting then
        match inst.definition.readyWhen with
        | some readyWhen =>
          let allOutput := String.intercalate "\n" (getOutputLinesAll st1 id)
          if readyWhen (stripAnsi allOutput) then
            let r := setStatusFn st1 id .running none
            (r.1, .output id line stream :: r.2)
          else (st1, [.output id line stream])
        | none => (st1, [.output id line stream])
      else (st1, [.output id line stream])

/-- `${code}` in the exit-handler template: JS prints `null` for a
null exit code. -/
def jsNullableIntToString : Option Int → String
  | none => "null"
  | some n => toString n

/-- The `proc.on('exit', (code, signal) => ...)` handler: clear the
process handle, then classify the exit. -/
def handleProcExit (st : ManagerState) (id : String) (code : Option Int)
    (signal : Option String) : ManagerState × List ManagerEvent :=
  let st1 :=
    match alGet st.instances id with
    | none => st
    | some inst =>
      { st with instances := alSet st.instances id { inst with process := false } }
  if code = some 0 ∨ signal = some "SIGTERM" ∨ signal = some "SIGINT" then
    setStatusFn st1 id .stopped none
  else
    setStatusFn st1 id .error (some ("Exited with code " ++ jsNullableIntToString code))

/-- The `proc.on('error', (err) => ...)` handler: clear the process
handle and report the OS error string. -/
def handleProcError (st : ManagerState) (id : String) (errMessage : String) :
    ManagerState × List ManagerEvent :=
  let st1 :=
    match alGet st.instances id with
    | none => st
    | some inst =>
      { st with instances := alSet st.instances id { inst with process := false } }
  setStatusFn st1 id .error (some errMessage)

/-- Result of `start(id)`: the new state, the events emitted
synchronously, the ids for which a child process was spawned, and the
thrown error, if any. -/
structure StartResult where
  state : ManagerState
  events : List ManagerEvent
  spawns : List String
  thrown : Option String

/-- `start(id)`: reject unknown ids, skip already running/starting
instances, reject empty commands; otherwise set `starting`, clear the
output buffers and the error, and spawn the child process. -/
def start (st : ManagerState) (id : String) : StartResult :=
  match alGet st.instances id with
  | none => { state := st, events := [], spawns := [], thrown := some ("Unknown runnable: " ++ id) }
  | some inst =>
    if inst.status = .running ∨ inst.status = .starting then
      { state := st, events := [], spawns := [], thrown := none }
    else if inst.definition.command = "" then
      { state := st, events := [], spawns := [],
        thrown := some ("Runnable \"" ++ id ++ "\" has no command") }
    else
      let r1 := setStatusFn st id .starting none
      let st2 :=
        match alGet r1.1.outputBuffers id with
        | none => r1.1
        | some bufs =>
          { r1.1 with outputBuffers := (alSet r1.1.outputBuffers id
              { stdout := bufs.stdout.clear
                stderr := bufs.stderr.clear
                output := bufs.output.clear }) }
      let st3 :=
        match alGet st2.instances id with
        | none => st2
        | some inst2 =>
          { st2 with instances := alSet st2.instances id { inst2 with process := true } }
      { state := st3, events := r1.2, spawns := [id], thrown := none }

def exampleDefn : RunnableDefinition := { command := "node server.js" }

def exampleInst : RunnableInstance :=
  { definition := exampleDefn, status := RunnableStatus.running, error := none,
    process := true, waitingFor := none }

def exampleSt : ManagerState :=
  { instances := [("api", exampleInst)], outputBuffers := [] }

def cexReadyWhen : String → Bool := fun s => s == "hi"

def cexDefn : RunnableDefinition :=
  { command := "run db", readyWhen := some cexReadyWhen }

def cexInst : RunnableInstance :=
  { definition := cexDefn, status := RunnableStatus.starting, error := none,
    process := true, waitingFor := none }

def cexBufs : RunnableBuffers :=
  { stdout := OutputBuffer.create 5, stderr := OutputBuffer.create 5,
    output := OutputBuffer.create 5 }

def cexSt : ManagerState :=
  { instances := [("db", cexInst)], outputBuffers := [("db", cexBufs)] }

/-! ## Spawn environment (src/src/runnables/manager.ts, `start`, lines 454-465)

The source builds the child environment as the object spread
`{...process.env, ...this.config.defaults?.env, ...definition.env,
FORCE_COLOR: '1'}`.  `spreadMerge` renders JS object spread for
string-keyed objects: keys of the left operand in order, values
overridden by the right operand, then new keys of the right operand. -/

def spreadMerge (a b : List (String × String)) : List (String × String) :=
  (a.map fun p =>
    match alGet b p.1 with
    | some v => (p.1, v)
    | none => p)
  ++ b.filter fun p => !((a.map Prod.fst).contains p.1)

/-- The child environment actually built by `start`. -/
def spawnEnv (procEnv defaultsEnv defEnv : List (String × String)) :
    List (String × String) :=
  spreadMerge (spreadMerge (spreadMerge procEnv defaultsEnv) defEnv)
    [("FORCE_COLOR", "1")]

/-- The child environment as the claim describes it, with the inherited
runtime env from dependencies merged in after the definition env
(follows the claim's words, for comparison with `spawnEnv`). -/
def spawnEnvClaim (procEnv defaultsEnv defEnv inheritedEnv : List (String × String)) :
    List (String × String) :=
  spreadMerge (spreadMerge (spreadMerge (spreadMerge procEnv defaultsEnv) defEnv)
    inheritedEnv) [("FORCE_COLOR", "1")]

/-! ## Ephemeral command runner (src/src/scripts/runner.ts, `ScriptRunner.run`)

The stdout/stderr data handlers split each chunk on newlines and push
every non-empty line onto `this._output` without any length cap. -/

/-- JS `String.prototype.split('\n')` on the chunk's characters. -/
def splitCharsOnNL (l : List Char) : List (List Char) :=
  match l with
  | [] => [[]]
  | c :: rest =>
    let r := splitCharsOnNL rest
    if c = '\n' then [] :: r
    else
      match r with
      | h :: t => (c :: h) :: t
      | [] => [[c]]

/-- One `data` event: split the chunk on newlines and push every
non-empty line onto `this._output` (no cap). -/
def scriptRunnerIngestChunk (output : List String) (chunk : String) : List String :=
  output ++ ((splitCharsOnNL chunk.data).map (fun cs => String.mk cs)).filter
    fun line => line != ""

def scriptRunnerOutput (chunks : List String) : List String :=
  chunks.foldl scriptRunnerIngestChunk []

/-- The manager's `MAX_OUTPUT_LINES` default (src/src/runnables/manager.ts). -/
def MAX_OUTPUT_LINES : Nat := 1000

/-! ## Target resolution (src/src/config/loader.ts) -/

/-- JS `String.prototype.toLowerCase()`. -/
def jsToLower (s : String) : String := ⟨s.data.map Char.toLower⟩

/-- JS `String.prototype.startsWith(pre)`. -/
def jsStartsWith (s pre : String) : Bool := pre.data.isPrefixOf s.data

/-- One row-building step of the Levenshtein DP: given the previous row
(`pdiag :: pj :: ...` aligned with the remaining characters of `a`) and
the value to the left, produce the rest of the current row. -/
def levRowGo (bc : Char) : List Char → List Nat → Nat → List Nat
  | aj :: arest, pdiag :: pj :: prest, left =>
    let v := if aj = bc then pdiag
      else Nat.min (pdiag + 1) (Nat.min (left + 1) (pj + 1))
    v :: levRowGo bc arest (pj :: prest) v
  | _, _, _ => []

/-- Fold the DP rows for each character of `b`; `i` is the row index
(`matrix[i][0] = i`). -/
def levRows (a : List Char) : List Char → List Nat → Nat → List Nat
  | [], prev, _ => prev
  | bc :: brest, prev, i => levRows a brest (i :: levRowGo bc a prev i) (i + 1)

/-- `levenshtein(a, b)` = `matrix[b.length][a.length]` of the classic DP
(named `levenshteinDist` because Mathlib already declares `levenshtein`). -/
def levenshteinDist (a b : String) : Nat :=
  (levRows a.data b.data (List.range (a.data.length + 1)) 1).getD a.data.length 0

/-- The Levenshtein passage of `findSimilar`: keep the candidate with
the smallest distance so far, provided `distance < bestDistance`
(`Infinity` modelled as `none`) and `distance ≤ 3`. -/
def findSimilarStep (input : String) (best : Option String × Option Nat)
    (candidate : String) : Option String × Option Nat :=
  let distance := levenshteinDist (jsToLower input) (jsToLower candidate)
  let closer := match best.2 with
    | none => true
    | some bd => decide (distance < bd)
  if closer && decide (distance ≤ 3) then (some candidate, some distance)
  else best

/-- `findSimilar(input, candidates)`: first a case-insensitive
bidirectional prefix match, then the best candidate at Levenshtein
distance at most 3. -/
def findSimilar (input : String) (candidates : List String) : Option String :=
  match candidates.find? (fun c =>
      jsStartsWith (jsToLower c) (jsToLower input)
      || jsStartsWith (jsToLower input) (jsToLower c)) with
  | some m => some m
  | none => (candidates.foldl (findSimilarStep input) (none, none)).1

/-- Invariant of the Levenshtein passage of `findSimilar`. -/
def findSimilarInv (input : String) (cands : List String) :
    Option String × Option Nat → Prop
  | (some s, some d) =>
    s ∈ cands ∧ d = levenshteinDist (jsToLower input) (jsToLower s) ∧ d ≤ 3
  | (none, none) => True
  | _ => False

/-- `targets.add(x)` on a JS `Set` (insertion order, no duplicates). -/
def setAdd (l : List String) (x : String) : List String :=
  if l.contains x then l else l ++ [x]

def groupErrMsg (name sid : String) : String :=
  "Group \"" ++ name ++ "\" references unknown service \"" ++ sid ++ "\""

def unknownTargetMsg (name : String) (suggestion : Option String) : String :=
  match suggestion with
  | some s => "Unknown target \"" ++ name ++ "\". Did you mean \"" ++ s ++ "\"?"
  | none => "Unknown target \"" ++ name ++ "\""

/-- Resolution of one name (one iteration of the loop in
`resolveTargets`). -/
def resolveStep (config : SpinConfig) (acc : List String × List String)
    (name : String) : List String × List String :=
  match alGet config.groups name with
  | some group =>
    group.foldl
      (fun acc2 serviceId =>
        match alGet config.runnables serviceId with
        | some _ => (setAdd acc2.1 serviceId, acc2.2)
        | none => (acc2.1, acc2.2 ++ [groupErrMsg name serviceId]))
      acc
  | none =>
    match alGet config.runnables name with
    | some _ => (setAdd acc.1 name, acc.2)
    | none =>
      (acc.1, acc.2 ++ [unknownTargetMsg name
        (findSimilar name ((config.runnables.map Prod.fst)
          ++ (config.groups.map Prod.fst)))])

def resolveTargets (names : List String) (config : SpinConfig) :
    List String × List String :=
  names.foldl (resolveStep config) ([], [])

def witDefn : RunnableDefinition := { command := "run" }

def witConfig : SpinConfig :=
  { runnables := [("api", witDefn), ("web", witDefn)]
    groups := [("dev", ["api", "bogus"])] }

/-- `this.instances.get(depId)?.status === 'running'`. -/
def depRunning (st : ManagerState) (depId : String) : Bool :=
  match alGet st.instances depId with
  | some dep => decide (dep.status = RunnableStatus.running)
  | none => false

/-- The body of the watcher's scan for one instance: if it is `waiting`,
its `waitingFor` contains the id that just became running, and every
`waitingFor` entry is now `running`, clear `waitingFor` and call
`start`. -/
def watcherStep (changedId : String) (acc : ManagerState × List String)
    (id : String) : ManagerState × List String :=
  match alGet acc.1.instances id with
  | none => acc
  | some inst =>
    if inst.status = RunnableStatus.waiting
        ∧ (inst.waitingFor.getD []).contains changedId = true then
      if (inst.waitingFor.getD []).all (depRunning acc.1) then
        let cur1 := { acc.1 with instances := (alSet acc.1.instances id
          { inst with waitingFor := none }) }
        ((start cur1 id).state, acc.2 ++ [id])
      else acc
    else acc

/-- The `status-change` handler installed by `setupDependencyWatcher`:
ignore everything but transitions to `running`; otherwise scan every
instance.  Returns the new state and the ids for which `start` was
issued. -/
def watcherScan (st : ManagerState) (changedId : String)
    (status : RunnableStatus) : ManagerState × List String :=
  if status ≠ RunnableStatus.running then (st, [])
  else (st.instances.map Prod.fst).foldl (watcherStep changedId) (st, [])

/-- The `dependencyWatcherSetup` guard: `watcherCount` counts the
`this.on('status-change', ...)` subscriptions made. -/
structure WatcherSetupState where
  dependencyWatcherSetup : Bool
  watcherCount : Nat
deriving Repr, DecidableEq

def setupDependencyWatcher (w : WatcherSetupState) : WatcherSetupState :=
  if w.dependencyWatcherSetup then w
  else { dependencyWatcherSetup := true, watcherCount := w.watcherCount + 1 }

/-- Resumption of `startWithDeps` after the `Promise.all` over
`waitForRunning` settles: on success clear `waitingFor` and call
`start`; on a dependency failure the `catch` block does nothing (the
waiter stays `waiting` and keeps `waitingFor`). -/
def startWithDepsResume (st : ManagerState) (id : String)
    (allDepsResolved : Bool) : ManagerState × List String :=
  if allDepsResolved then
    match alGet st.instances id with
    | none => (st, [])
    | some inst =>
      let st1 := { st with instances := (alSet st.instances id
        { inst with waitingFor := none }) }
      ((start st1 id).state, [id])
  else (st, [])

/-- The watcher's start condition for one instance, evaluated against a
given state. -/
def waiterReady (st : ManagerState) (changedId : String)
    (inst : RunnableInstance) : Prop :=
  inst.status = RunnableStatus.waiting
  ∧ (inst.waitingFor.getD []).contains changedId = true
  ∧ ∀ d ∈ inst.waitingFor.getD [], depRunning st d = true

instance (st : ManagerState) (changedId : String) (inst : RunnableInstance) :
    Decidable (waiterReady st changedId inst) := by
  unfold waiterReady
  infer_instance

/-- The cumulative effect of the watcher's `start` on the started
instance. -/
def modInst (inst : RunnableInstance) : RunnableInstance :=
  { inst with
    waitingFor := none
    status := RunnableStatus.starting
    error := none
    process := true }

/-- Invariant carried through the watcher's scan over the instance ids:
`acc.2` collects exactly the waiters that satisfied the start condition
(evaluated against the pre-scan state `st`, which is legitimate because
a started waiter moves `waiting → starting`, never changing any
`running`-ness). -/
def WatcherInv (st : ManagerState) (cid : String) (processed : List String)
    (acc : ManagerState × List String) : Prop :=
  acc.2 ⊆ processed
  ∧ (∀ k, k ∈ acc.2 → ∃ inst0, alGet st.instances k = some inst0
      ∧ waiterReady st cid inst0
      ∧ alGet acc.1.instances k = some (modInst inst0))
  ∧ (∀ k, k ∉ acc.2 → alGet acc.1.instances k = alGet st.instances k)
  ∧ (∀ k, k ∈ processed → k ∉ acc.2 →
      ∀ inst0, alGet st.instances k = some inst0 → ¬ waiterReady st cid inst0)
  ∧ acc.1.instances.map Prod.fst = st.instances.map Prod.fst

def c2wA : RunnableInstance :=
  { definition := { command := "run a" }, status := RunnableStatus.running,
    error := none, process := true, waitingFor := none }

def c2wB : RunnableInstance :=
  { definition := { command := "run b" }, status := RunnableStatus.waiting,
    error := none, process := false, waitingFor := some ["a"] }

def c2wSt : ManagerState :=
  { instances := [("a", c2wA), ("b", c2wB)], outputBuffers := [] }

def c2xC : RunnableInstance :=
  { definition := { command := "run c" }, status := RunnableStatus.running,
    error := none, process := true, waitingFor := none }

def c2xSt : ManagerState :=
  { instances := [("a", c2wA), ("b", c2wB), ("c", c2xC)], outputBuffers := [] }

/-! ## Topological order and startAll (src/src/runnables/manager.ts,
`getTopologicalOrder`, `startAll`) -/

def instIds (st : ManagerState) : List String := st.instances.map Prod.fst

/-- `this.instances.get(id)?.definition.dependsOn ?? []`. -/
def instDeps (st : ManagerState) (id : String) : List String :=
  match alGet st.instances id with
  | some inst => inst.definition.dependsOn
  | none => []

/-- The validation loop: the first `(id, dep)` with `dep` not an
initialized instance, in iteration order. -/
def firstUnknownDepAux (st : ManagerState) : List String → Option (String × String)
  | [] => none
  | id :: rest =>
    match (instDeps st id).find? (fun dep => !((instIds st).contains dep)) with
    | some dep => some (id, dep)
    | none => firstUnknownDepAux st rest

def unknownDepMessage (id dep : String) (ids : List String) : String :=
  "Unknown dependency \"" ++ dep ++ "\" in runnable \"" ++ id ++ "\".\n\n  dependsOn: [\""
    ++ dep ++ "\"]  ← not found\n\nAvailable runnables: " ++ String.intercalate ", " ids

/-- `inDegree`: seeded to `0` for every id, then set to
`deps.length`. -/
def buildInDeg (st : ManagerState) (ids : List String) : List (String × Int) :=
  let base := ids.foldl (fun m id => alSet m id (0 : Int)) []
  ids.foldl (fun m id => alSet m id ((instDeps st id).length : Int)) base

/-- `graph`: dependency → dependents, seeded to `[]`, then built by
`graph.get(dep)?.push(id)`. -/
def buildGraph (st : ManagerState) (ids : List String) : List (String × List String) :=
  let base := ids.foldl (fun g id => alSet g id ([] : List String)) []
  ids.foldl (fun g id => (instDeps st id).foldl (fun g2 dep => alPush g2 dep id) g) base

/-- One in-degree decrement:
`(inDegree.get(dependent) ?? 1) - 1`, enqueue on zero. -/
def kahnDecStep (acc : List (String × Int) × List String) (dependent : String) :
    List (String × Int) × List String :=
  let newDegree := (alGet acc.1 dependent).getD 1 - 1
  let m := alSet acc.1 dependent newDegree
  if newDegree = 0 then (m, acc.2 ++ [dependent]) else (m, acc.2)

/-- Kahn's main loop.  The fuel only bounds recursion:
`kahnLoop_drains` shows that with the fuel used by
`getTopologicalOrder` the loop always terminates with an empty queue,
exactly like the unbounded `while` of the source.  Returns
`(sorted, inDegree, remaining queue)`. -/
def kahnLoop (graph : List (String × List String)) :
    Nat → List String → List String → List (String × Int) →
    List String × List (String × Int) × List String
  | 0, queue, sorted, inDeg => (sorted, inDeg, queue)
  | _ + 1, [], sorted, inDeg => (sorted, inDeg, [])
  | fuel + 1, current :: rest, sorted, inDeg =>
    let step := ((alGet graph current).getD []).foldl kahnDecStep (inDeg, [])
    kahnLoop graph fuel (rest ++ step.2) (sorted ++ [current]) step.1

/-- Number of entries with positive in-degree. -/
def posCount (m : List (String × Int)) : Nat :=
  m.countP (fun p => decide (0 < p.2))

def getTopologicalOrder (st : ManagerState) : Except String (List String) :=
  let ids := instIds st
  match firstUnknownDepAux st ids with
  | some p => .error (unknownDepMessage p.1 p.2 ids)
  | none =>
    let inDegree := buildInDeg st ids
    let graph := buildGraph st ids
    let queue := ids.filter (fun id => alGet inDegree id == some 0)
    let r := kahnLoop graph (queue.length + posCount inDegree) queue [] inDegree
    if r.1.length ≠ ids.length then
      Except.error ("Dependency cycle detected: " ++ String.intercalate ", "
        (ids.filter (fun id => decide (0 < (alGet r.2.1 id).getD 0))))
    else Except.ok r.1

/-- `startAll()`: compute the topological order (an exception
propagates to the caller before any `startWithDeps` is issued), then
issue `startWithDeps` for each id in order.  Returns the propagated
error and the list of ids handed to the gated-start path. -/
def startAllRun (st : ManagerState) : Option String × List String :=
  match getTopologicalOrder st with
  | .error e => (some e, [])
  | .ok order => (none, order)

def c1Defn : RunnableDefinition := { command := "run a", dependsOn := ["ghost"] }

def c1Config : SpinConfig := { runnables := [("a", c1Defn)] }

def c1CycA : RunnableDefinition := { command := "run a", dependsOn := ["b"] }

def c1CycB : RunnableDefinition := { command := "run b", dependsOn := ["a"] }

def c1CycConfig : SpinConfig := { runnables := [("a", c1CycA), ("b", c1CycB)] }

/-! ## Theorems -/

/-! ### List and arithmetic helpers -/

theorem listGetD_set_eq {α : Type} (l : List α) (i : Nat) (x d : α) (h : i < l.length) :
    (l.set i x).getD i d = x := by
  induction l generalizing i with
  | nil => simp at h
  | cons a t ih =>
    cases i with
    | zero => rfl
    | succ j => simpa using ih j (by simpa using h)

theorem listGetD_set_ne {α : Type} (l : List α) (i j : Nat) (x d : α) (h : i ≠ j) :
    (l.set i x).getD j d = l.getD j d := by
  induction l generalizing i j with
  | nil => simp [List.set]
  | cons a t ih =>
    cases i with
    | zero =>
      cases j with
      | zero => exact absurd rfl h
      | succ k => rfl
    | succ i' =>
      cases j with
      | zero => rfl
      | succ k => simpa using ih i' k (by omega)

theorem listGetD_lt {α : Type} (l : List α) (i : Nat) (d : α) (h : i < l.length) :
    l.getD i d = l[i] := by
  induction l generalizing i with
  | nil => simp at h
  | cons a t ih =>
    cases i with
    | zero => rfl
    | succ j => simpa using ih j (by simpa using h)

theorem mod_shift_inj {cap s i j : Nat} (hi : i < cap) (hj : j < cap)
    (h : (s + i) % cap = (s + j) % cap) : i = j := by
  have h' : i % cap = j % cap := Nat.ModEq.add_left_cancel' s h
  rwa [Nat.mod_eq_of_lt hi, Nat.mod_eq_of_lt hj] at h'

/-! ### OutputBuffer invariants and abstraction -/

theorem OutputBuffer.wf_create (capacity : Int) : (OutputBuffer.create capacity).WF := by
  refine ⟨by simp [create], by simp [create], ?_⟩
  rcases Nat.eq_zero_or_pos capacity.toNat with h | h
  · exact Or.inr ⟨by simp [create, h], by simp [create]⟩
  · exact Or.inl (by simpa [create] using h)

theorem OutputBuffer.capacity_push (b : OutputBuffer) (x : String) :
    (b.push x).capacity = b.capacity := by
  unfold push
  split <;> try rfl
  split <;> rfl

theorem OutputBuffer.capacity_clear (b : OutputBuffer) :
    (b.clear).capacity = b.capacity := rfl

theorem OutputBuffer.wf_push (b : OutputBuffer) (x : String) (hwf : b.WF) :
    (b.push x).WF := by
  obtain ⟨hlen, hsize, hstart⟩ := hwf
  unfold push
  by_cases hc : b.capacity = 0
  · simpa [hc] using ⟨hlen, hsize, hstart⟩
  · have hcpos : 0 < b.capacity := Nat.pos_of_ne_zero hc
    by_cases hlt : b.size < b.capacity
    · refine if_neg hc ▸ ?_
      simp only [hc, if_false, hlt, if_true]
      exact ⟨by simpa using hlen, hlt, hstart⟩
    · simp only [hc, if_false, hlt, if_false]
      exact ⟨by simpa using hlen, hsize, Or.inl (Nat.mod_lt _ hcpos)⟩

theorem OutputBuffer.wf_clear (b : OutputBuffer) (hwf : b.WF) : (b.clear).WF := by
  obtain ⟨hlen, hsize, hstart⟩ := hwf
  exact ⟨hlen, Nat.zero_le _, by
    rcases Nat.eq_zero_or_pos b.capacity with h | h
    · exact Or.inr ⟨h, rfl⟩
    · exact Or.inl h⟩

theorem OutputBuffer.model_clear (b : OutputBuffer) : (b.clear).model = [] := by
  simp [model, clear]

theorem OutputBuffer.model_length (b : OutputBuffer) : b.model.length = b.size := by
  simp [model]

theorem OutputBuffer.model_push (b : OutputBuffer) (x : String) (hwf : b.WF) :
    (b.push x).model = specFifoPush b.capacity b.model x := by
  obtain ⟨hlen, hsize, hstart⟩ := hwf
  by_cases hc : b.capacity = 0
  · simp [push, hc, specFifoPush]
  · have hcpos : 0 < b.capacity := Nat.pos_of_ne_zero hc
    have hmlen : b.model.length = b.size := b.model_length
    by_cases hlt : b.size < b.capacity
    · -- non-full push: append at the logical end
      have hidx : (b.start + b.size) % b.capacity < b.buffer.length := by
        rw [hlen]; exact Nat.mod_lt _ hcpos
      simp only [push, hc, if_false, hlt, if_true]
      simp only [specFifoPush]
      rw [if_neg hc, if_pos (by omega)]
      simp only [model]
      rw [List.range_succ, List.map_append, List.map_cons, List.map_nil]
      congr 1
      · apply List.map_congr_left
        intro i hi
        have hi' : i < b.size := List.mem_range.mp hi
        apply listGetD_set_ne
        intro heq
        have : b.size = i := mod_shift_inj hlt (lt_trans hi' hlt) heq
        omega
      · simp only [List.cons.injEq, and_true]
        exact listGetD_set_eq _ _ _ _ hidx
    · -- full push: drop the oldest, append the new entry
      have hfull : b.size = b.capacity := le_antisymm hsize (le_of_not_lt hlt)
      have hstart' : b.start < b.capacity := by
        rcases hstart with h | ⟨h, _⟩
        · exact h
        · omega
      have hdlen : (b.model.drop 1).length = b.capacity - 1 := by
        simp [model]; omega
      simp only [push, hc, if_false, hlt, if_false]
      simp only [specFifoPush]
      rw [if_neg hc, if_neg (by omega)]
      apply List.ext_getElem
      · simp [model]
        omega
      · intro j hj₁ hj₂
        have hj : j < b.capacity := by
          simp [model] at hj₁
          omega
        by_cases hjlast : j = b.capacity - 1
        · -- the new element lands at the end
          have hge : (b.model.drop 1).length ≤ j := by omega
          rw [List.getElem_append_right hge]
          have hlhs : ({ b with
              buffer := b.buffer.set b.start x,
              start := (b.start + 1) % b.capacity } : OutputBuffer).model[j] = x := by
            simp only [model, List.getElem_map, List.getElem_range]
            have hidx : ((b.start + 1) % b.capacity + j) % b.capacity = b.start := by
              rw [Nat.mod_add_mod, hjlast]
              have h2 : b.start + 1 + (b.capacity - 1) = b.start + b.capacity := by omega
              rw [h2, Nat.add_mod_right, Nat.mod_eq_of_lt hstart']
            rw [hidx, listGetD_set_eq _ _ _ _ (by rw [hlen]; exact hstart')]
          rw [hlhs]
          have h0 : j - (b.model.drop 1).length = 0 := by omega
          simp [h0]
        · -- elements shift down by one position
          have hjlt : j < b.capacity - 1 := by omega
          have hlt' : j < (b.model.drop 1).length := by omega
          rw [List.getElem_append_left hlt', List.getElem_drop]
          simp only [model, List.getElem_map, List.getElem_range]
          have hidx : ((b.start + 1) % b.capacity + j) % b.capacity
              = (b.start + (1 + j)) % b.capacity := by
            rw [Nat.mod_add_mod]
            congr 1
            omega
          have hne : (b.start + (1 + j)) % b.capacity ≠ b.start := by
            intro heq
            have heq' : (b.start + (1 + j)) % b.capacity = (b.start + 0) % b.capacity := by
              rw [heq, Nat.add_zero, Nat.mod_eq_of_lt hstart']
            have := mod_shift_inj (show 1 + j < b.capacity by omega) hcpos heq'
            omega
          rw [hidx, listGetD_set_ne _ _ _ _ _ (Ne.symm hne)]

theorem OutputBuffer.toArray_eq_model (b : OutputBuffer) (hwf : b.WF) :
    b.toArray = b.model := by
  obtain ⟨hlen, hsize, hstart⟩ := hwf
  by_cases hs : b.size = 0
  · simp [toArray, hs, model]
  · by_cases hfast : b.size = b.capacity ∧ b.start = 0
    · rw [toArray, if_neg hs, if_pos hfast]
      obtain ⟨hcap, hst⟩ := hfast
      apply List.ext_getElem
      · simp [model]
        omega
      · intro j hj₁ hj₂
        have hj : j < b.capacity := by rw [hlen] at hj₁; exact hj₁
        simp only [model, List.getElem_map, List.getElem_range, hst, Nat.zero_add,
          Nat.mod_eq_of_lt hj]
        exact (listGetD_lt _ _ _ hj₁).symm
    · rw [toArray, if_neg hs, if_neg hfast]
      rfl

theorem OutputBuffer.tail_eq_model (b : OutputBuffer) (n : Nat) (hwf : b.WF) :
    b.tail n = b.model.drop (b.size - min b.size n) := by
  obtain ⟨hlen, hsize, hstart⟩ := hwf
  by_cases hs : b.size = 0
  · simp [tail, hs, model]
  · by_cases hn : min b.size n = 0
    · have hdrop : b.model.drop (b.size - min b.size n) = [] :=
        List.drop_eq_nil_of_le (by simp [model]; omega)
      rw [hdrop]
      simp [tail, hs, hn]
    · have hcpos : 0 < b.capacity := by omega
      have hle : min b.size n ≤ b.size := Nat.min_le_left _ _
      have hunf : b.tail n = (List.range (min b.size n)).map (fun i =>
          b.buffer.getD
            (((b.start + b.size - min b.size n + b.capacity) % b.capacity + i) % b.capacity)
            "") := by
        simp [tail, hs, hn]
      rw [hunf]
      apply List.ext_getElem
      · simp [model]
        omega
      · intro j hj₁ hj₂
        have hj : j < min b.size n := by simpa using hj₁
        rw [List.getElem_drop]
        simp only [model, List.getElem_map, List.getElem_range]
        congr 1
        rw [Nat.mod_add_mod]
        have h1 : b.start + b.size - min b.size n + b.capacity + j
            = (b.start + (b.size - min b.size n + j)) + b.capacity := by omega
        rw [h1, Nat.add_mod_right]

theorem OutputBuffer.model_create (capacity : Int) : (OutputBuffer.create capacity).model = [] := by
  simp [model, create]

theorem OutputBuffer.capacity_applyOp (b : OutputBuffer) (op : BufOp) :
    (b.applyOp op).capacity = b.capacity := by
  cases op with
  | push line => exact b.capacity_push line
  | clear => rfl

theorem OutputBuffer.wf_applyOp (b : OutputBuffer) (op : BufOp) (hwf : b.WF) :
    (b.applyOp op).WF := by
  cases op with
  | push line => exact b.wf_push line hwf
  | clear => exact b.wf_clear hwf

theorem OutputBuffer.model_applyOp (b : OutputBuffer) (op : BufOp) (hwf : b.WF) :
    (b.applyOp op).model =
      (match op with
        | BufOp.push x => specFifoPush b.capacity b.model x
        | BufOp.clear => []) := by
  cases op with
  | push line => exact b.model_push line hwf
  | clear => exact b.model_clear

theorem OutputBuffer.applyOps_invariant (ops : List BufOp) :
    ∀ (b : OutputBuffer), b.WF →
      (b.applyOps ops).WF
      ∧ (b.applyOps ops).capacity = b.capacity
      ∧ (b.applyOps ops).model
          = ops.foldl
              (fun l op =>
                match op with
                | BufOp.push x => specFifoPush b.capacity l x
                | BufOp.clear => []) b.model := by
  induction ops with
  | nil => exact fun b hwf => ⟨hwf, rfl, rfl⟩
  | cons op rest ih =>
    intro b hwf
    obtain ⟨h1, h2, h3⟩ := ih (b.applyOp op) (b.wf_applyOp op hwf)
    have hcap : (b.applyOp op).capacity = b.capacity := b.capacity_applyOp op
    refine ⟨h1, by rw [applyOps, List.foldl_cons, ← applyOps, h2, hcap], ?_⟩
    rw [applyOps, List.foldl_cons, ← applyOps, h3, List.foldl_cons,
      b.model_applyOp op hwf]
    cases op with
    | push line => rw [hcap]
    | clear => rw [hcap]

theorem foldl_push_eq_applyOps (lines : List String) :
    ∀ b : OutputBuffer,
      lines.foldl OutputBuffer.push b = b.applyOps (lines.map BufOp.push) := by
  induction lines with
  | nil => intro b; rfl
  | cons l rest ih =>
    intro b
    rw [List.foldl_cons, List.map_cons, OutputBuffer.applyOps, List.foldl_cons]
    exact ih (b.push l)

theorem push_capacity_zero (b : OutputBuffer) (x : String) (h : b.capacity = 0) :
    b.push x = b := by
  simp [OutputBuffer.push, h]

theorem foldl_push_capacity_zero (lines : List String) :
    ∀ b : OutputBuffer, b.capacity = 0 → lines.foldl OutputBuffer.push b = b := by
  induction lines with
  | nil => intro b _; rfl
  | cons l rest ih =>
    intro b h
    rw [List.foldl_cons, push_capacity_zero b l h]
    exact ih b h

/-- C5: for every ring buffer of any capacity and every sequence of push
operations, the stored length never exceeds the capacity; a push onto a
full buffer drops the oldest stored entry in FIFO order; a buffer
constructed with capacity 0 discards every push and all queries return
empty. -/
theorem spin_c5_ring_buffer_bounds (cap : Int) (lines : List String) (x : String) (n : Nat) :
    (lines.foldl OutputBuffer.push (OutputBuffer.create cap)).length
        ≤ (lines.foldl OutputBuffer.push (OutputBuffer.create cap)).capacity
    ∧ ((lines.foldl OutputBuffer.push (OutputBuffer.create cap)).size
          = (lines.foldl OutputBuffer.push (OutputBuffer.create cap)).capacity →
        0 < (lines.foldl OutputBuffer.push (OutputBuffer.create cap)).capacity →
        ((lines.foldl OutputBuffer.push (OutputBuffer.create cap)).push x).toArray
          = (lines.foldl OutputBuffer.push (OutputBuffer.create cap)).toArray.drop 1 ++ [x])
    ∧ lines.foldl OutputBuffer.push (OutputBuffer.create 0) = OutputBuffer.create 0
    ∧ (OutputBuffer.create 0).toArray = []
    ∧ (OutputBuffer.create 0).tail n = []
    ∧ (OutputBuffer.create 0).length = 0 := by
  have hwf0 := OutputBuffer.wf_create cap
  have heq := foldl_push_eq_applyOps lines (OutputBuffer.create cap)
  obtain ⟨hwf, hcap, _⟩ :=
    (OutputBuffer.applyOps_invariant (lines.map BufOp.push)) (OutputBuffer.create cap) hwf0
  rw [← heq] at hwf hcap
  refine ⟨hwf.size_le, ?_, foldl_push_capacity_zero lines _ rfl, rfl, rfl, rfl⟩
  intro hfull hpos
  set b := lines.foldl OutputBuffer.push (OutputBuffer.create cap) with hb
  have hwp := b.wf_push x hwf
  rw [OutputBuffer.toArray_eq_model _ hwp, OutputBuffer.toArray_eq_model _ hwf,
    b.model_push x hwf]
  simp only [specFifoPush]
  rw [if_neg (by omega), if_neg (by rw [b.model_length]; omega)]

/-- C5 witness: a capacity-1 buffer holding one entry is full; pushing a
second entry drops the first. -/
theorem spin_c5_ring_buffer_bounds_witness :
    ((["a"].foldl OutputBuffer.push (OutputBuffer.create 1)).push "b").toArray
      = (["a"].foldl OutputBuffer.push (OutputBuffer.create 1)).toArray.drop 1 ++ ["b"] :=
  (spin_c5_ring_buffer_bounds 1 ["a"] "b" 0).2.1 (by decide) (by decide)

/-- C6: for every reachable ring-buffer state (any capacity, any sequence
of pushes and clears) and every `n`, `tail n` returns exactly the most
recent `min n len` stored entries in insertion order and `toArray` returns
all currently stored entries in insertion order, where the stored entries
are given by the abstract FIFO semantics `specContents`. -/
theorem spin_c6_tail_toArray (cap : Int) (ops : List BufOp) (n : Nat) :
    ((OutputBuffer.create cap).applyOps ops).toArray = specContents cap.toNat ops
    ∧ ((OutputBuffer.create cap).applyOps ops).tail n
        = (specContents cap.toNat ops).drop
            ((specContents cap.toNat ops).length - min n (specContents cap.toNat ops).length) := by
  obtain ⟨hwf, hcap, hmodel⟩ :=
    (OutputBuffer.applyOps_invariant ops) (OutputBuffer.create cap) (OutputBuffer.wf_create cap)
  set b := (OutputBuffer.create cap).applyOps ops with hb
  have hmodel' : b.model = specContents cap.toNat ops := by
    rw [hmodel, OutputBuffer.model_create]
    rfl
  have hsize : b.size = (specContents cap.toNat ops).length := by
    rw [← hmodel', b.model_length]
  refine ⟨by rw [b.toArray_eq_model hwf, hmodel'], ?_⟩
  rw [b.tail_eq_model n hwf, hmodel', hsize, Nat.min_comm]

theorem alGet_alSet_eq {α : Type} (l : List (String × α)) (k : String) (v : α) :
    alGet (alSet l k v) k = some v := by
  induction l with
  | nil => simp [alSet, alGet, List.find?]
  | cons p rest ih =>
    by_cases h : p.1 = k
    · simp [alSet, h, alGet, List.find?]
    · have hb : (p.1 == k) = false := by simpa using h
      simp only [alSet, hb, if_false]
      simpa [alGet, List.find?, hb] using ih

theorem alGet_alSet_ne {α : Type} (l : List (String × α)) (k k' : String) (v : α)
    (h : k' ≠ k) : alGet (alSet l k v) k' = alGet l k' := by
  induction l with
  | nil =>
    have hb : (k == k') = false := by simpa using fun he => h he.symm
    simp [alSet, alGet, List.find?, hb]
  | cons p rest ih =>
    by_cases hp : p.1 = k
    · have hb : (p.1 == k) = true := by simpa using hp
      have hbk : (k == k') = false := by simpa using fun he => h he.symm
      have hbp : (p.1 == k') = false := by
        simpa using fun he => h (hp ▸ he).symm
      simp [alSet, hb, alGet, List.find?, hbk, hbp, hp]
    · have hb : (p.1 == k) = false := by simpa using hp
      simp only [alSet, hb, if_false]
      by_cases hq : p.1 = k'
      · have hbq : (p.1 == k') = true := by simpa using hq
        simp [alGet, List.find?, hbq]
      · have hbq : (p.1 == k') = false := by simpa using hq
        simpa [alGet, List.find?, hbq] using ih

theorem alGet_of_mem_nodup {α : Type} (l : List (String × α)) (k : String) (v : α)
    (hmem : (k, v) ∈ l) (hnd : (l.map Prod.fst).Nodup) : alGet l k = some v := by
  induction l with
  | nil => simp at hmem
  | cons p rest ih =>
    rcases List.mem_cons.mp hmem with heq | htail
    · subst heq
      simp [alGet, List.find?]
    · have hne : p.1 ≠ k := by
        intro h
        have hk : k ∈ rest.map Prod.fst := List.mem_map_of_mem Prod.fst htail
        rw [List.map_cons] at hnd
        exact (List.nodup_cons.mp hnd).1 (h ▸ hk)
      have hb : (p.1 == k) = false := by simpa using hne
      have := ih htail (by rw [List.map_cons] at hnd; exact (List.nodup_cons.mp hnd).2)
      simpa [alGet, List.find?, hb] using this

theorem alSet_keys_of_mem {α : Type} (l : List (String × α)) (k : String) (v : α)
    (hmem : k ∈ l.map Prod.fst) : (alSet l k v).map Prod.fst = l.map Prod.fst := by
  induction l with
  | nil => simp at hmem
  | cons p rest ih =>
    by_cases h : p.1 = k
    · simp [alSet, h]
    · have hb : (p.1 == k) = false := by simpa using h
      have hmem' : k ∈ rest.map Prod.fst := by
        rcases List.mem_map.mp hmem with ⟨q, hq, hqk⟩
        rcases List.mem_cons.mp hq with rfl | hq'
        · exact absurd hqk h
        · exact hqk ▸ List.mem_map_of_mem Prod.fst hq'
      simp [alSet, hb, ih hmem']

/-- A generic foldl preservation principle. -/
theorem foldl_preserve {α β : Type} (P : α → Prop) (f : α → β → α) (l : List β)
    (init : α) (h0 : P init) (hstep : ∀ a b, b ∈ l → P a → P (f a b)) :
    P (l.foldl f init) := by
  induction l generalizing init with
  | nil => exact h0
  | cons b rest ih =>
    exact ih (f init b) (hstep init b (List.mem_cons_self b rest) h0)
      (fun a c hc ha => hstep a c (List.mem_cons_of_mem b hc) ha)

theorem sgrMatchRest_length (rest r3 : List Char) (h : sgrMatchRest rest = some r3) :
    r3.length + 2 ≤ rest.length := by
  cases rest with
  | nil => simp [sgrMatchRest] at h
  | cons c r2 =>
    simp only [sgrMatchRest] at h
    by_cases hc : c = '['
    · rw [if_pos hc] at h
      cases hd : r2.dropWhile isSgrParamChar with
      | nil => rw [hd] at h; exact absurd h (by simp)
      | cons m r3' =>
        rw [hd] at h
        have h' : (if m = 'm' then some r3' else none) = some r3 := h
        by_cases hm : m = 'm'
        · rw [if_pos hm] at h'
          have hr3 : r3' = r3 := Option.some.inj h'
          have hsub : (r2.dropWhile isSgrParamChar).length ≤ r2.length :=
            (List.dropWhile_sublist isSgrParamChar).length_le
          rw [hd] at hsub
          subst hr3
          simp at hsub ⊢
          omega
        · rw [if_neg hm] at h'; exact absurd h' (by simp)
    · rw [if_neg hc] at h; exact absurd h (by simp)

theorem sgrStripGo_fuel (f : Nat) :
    ∀ (g : Nat) (l : List Char), l.length ≤ f → l.length ≤ g →
      sgrStripGo f l = sgrStripGo g l := by
  induction f with
  | zero =>
    intro g l hf hg
    have hnil : l = [] := List.length_eq_zero.mp (Nat.le_zero.mp hf)
    subst hnil
    cases g <;> rfl
  | succ f ih =>
    intro g l hf hg
    cases l with
    | nil => cases g <;> rfl
    | cons c rest =>
      cases g with
      | zero => simp at hg
      | succ g' =>
        have hlen : rest.length + 1 ≤ f + 1 := by simpa using hf
        have hlen' : rest.length + 1 ≤ g' + 1 := by simpa using hg
        show sgrStripGo (f + 1) (c :: rest) = sgrStripGo (g' + 1) (c :: rest)
        simp only [sgrStripGo]
        by_cases hc : c = ansiEsc
        · simp only [hc, if_true]
          cases hm : sgrMatchRest rest with
          | some r3 =>
            have hr3 := sgrMatchRest_length rest r3 hm
            exact ih g' r3 (by omega) (by omega)
          | none =>
            rw [ih g' rest (by omega) (by omega)]
        · simp only [hc, if_false]
          rw [ih g' rest (by omega) (by omega)]

theorem sgrMatchRest_sgr (params : List Char) (s : List Char)
    (h : ∀ c ∈ params, isSgrParamChar c = true) :
    sgrMatchRest ('[' :: (params ++ 'm' :: s)) = some s := by
  have hdw : (params ++ 'm' :: s).dropWhile isSgrParamChar = 'm' :: s := by
    induction params with
    | nil => simp [List.dropWhile, isSgrParamChar]
    | cons p ps ih =>
      have hp : isSgrParamChar p = true := h p (List.mem_cons_self p ps)
      have ih' := ih fun c hc => h c (List.mem_cons_of_mem p hc)
      simp [List.dropWhile, hp, ih']
  simp [sgrMatchRest, hdw]

theorem stripAnsi_sgr_prepend (params : List Char) (s : String)
    (h : ∀ c ∈ params, isSgrParamChar c = true) :
    stripAnsi (mkSgrSeq params ++ s) = stripAnsi s := by
  have hdata : (mkSgrSeq params ++ s).data
      = ansiEsc :: '[' :: (params ++ 'm' :: s.data) := by
    simp [mkSgrSeq, String.data_append]
  unfold stripAnsi
  rw [hdata]
  have hlen : (ansiEsc :: '[' :: (params ++ 'm' :: s.data)).length
      = params.length + s.data.length + 3 := by
    simp
    omega
  rw [hlen]
  have hstep : sgrStripGo (params.length + s.data.length + 3)
      (ansiEsc :: '[' :: (params ++ 'm' :: s.data))
      = sgrStripGo (params.length + s.data.length + 2) s.data := by
    have h3 : params.length + s.data.length + 3
        = (params.length + s.data.length + 2) + 1 := by omega
    rw [h3]
    simp only [sgrStripGo, if_pos rfl]
    rw [sgrMatchRest_sgr params s.data h]
    simp
  rw [hstep, sgrStripGo_fuel (params.length + s.data.length + 2) s.data.length s.data
    (by omega) (le_refl _)]

/-- C10: calling `start(id)` with an id that was never initialized rejects
with `Unknown runnable: <id>` and causes no state change: no instance is
created, no event is emitted, and no process is spawned. -/
theorem spin_c10_unknown_start (st : ManagerState) (id : String)
    (h : alGet st.instances id = none) :
    start st id
      = { state := st, events := [], spawns := [],
          thrown := some ("Unknown runnable: " ++ id) } := by
  simp [start, h]

/-- C10 witness: starting `api` on an empty manager throws and leaves the
state untouched. -/
theorem spin_c10_unknown_start_witness :
    start { instances := [], outputBuffers := [] } "api"
      = { state := { instances := [], outputBuffers := [] }, events := [], spawns := [],
          thrown := some "Unknown runnable: api" } :=
  spin_c10_unknown_start { instances := [], outputBuffers := [] } "api" rfl

/-- C4: exit code 0, or termination by SIGTERM or SIGINT, transitions the
instance to `stopped`; any other exit code or terminating signal
transitions it to `error` with message `Exited with code N`; a spawn
failure transitions it to `error` carrying the OS error string; in every
case the process handle is cleared. -/
theorem spin_c4_exit_classification (st : ManagerState) (id : String)
    (inst : RunnableInstance) (code : Option Int) (signal : Option String)
    (msg : String) (h : alGet st.instances id = some inst) :
    ((code = some 0 ∨ signal = some "SIGTERM" ∨ signal = some "SIGINT") →
        statusOf (handleProcExit st id code signal).1 id = some RunnableStatus.stopped
        ∧ errorOf (handleProcExit st id code signal).1 id = some none
        ∧ processOf (handleProcExit st id code signal).1 id = some false
        ∧ (handleProcExit st id code signal).2
            = [ManagerEvent.statusChange id RunnableStatus.stopped none])
    ∧ (¬(code = some 0 ∨ signal = some "SIGTERM" ∨ signal = some "SIGINT") →
        statusOf (handleProcExit st id code signal).1 id = some RunnableStatus.error
        ∧ errorOf (handleProcExit st id code signal).1 id
            = some (some ("Exited with code " ++ jsNullableIntToString code))
        ∧ processOf (handleProcExit st id code signal).1 id = some false)
    ∧ (statusOf (handleProcError st id msg).1 id = some RunnableStatus.error
        ∧ errorOf (handleProcError st id msg).1 id = some (some msg)
        ∧ processOf (handleProcError st id msg).1 id = some false) := by
  refine ⟨?_, ?_, ?_⟩
  · intro hcond
    simp [handleProcExit, h, hcond, setStatusFn, alGet_alSet_eq, statusOf, errorOf,
      processOf]
  · intro hcond
    simp [handleProcExit, h, hcond, setStatusFn, alGet_alSet_eq, statusOf, errorOf,
      processOf]
  · simp [handleProcError, h, setStatusFn, alGet_alSet_eq, statusOf, errorOf, processOf]

/-- C4 witness: exit code 2 with no signal classifies as `error` with
message `Exited with code 2`. -/
theorem spin_c4_exit_classification_witness :
    statusOf (handleProcExit exampleSt "api" (some 2) none).1 "api"
        = some RunnableStatus.error
    ∧ errorOf (handleProcExit exampleSt "api" (some 2) none).1 "api"
        = some (some "Exited with code 2") := by
  have h := (spin_c4_exit_classification exampleSt "api" exampleInst (some 2) none "boom"
    rfl).2.1 (by decide)
  exact ⟨h.1, h.2.1⟩

/-- C3 (amended): while an instance with a `readyWhen` predicate is
`starting`, each appended output line triggers an evaluation of the
predicate on the SGR-colour-stripped (`ESC [ <digits/semicolons> m`)
concatenation of the combined output buffer; the first evaluation
returning true sets the status to `running`, otherwise the instance
stays `starting`; and prepending an SGR colour sequence to the text
never changes the predicate's result on the stripped text. -/
theorem spin_c3_ready_detection (st : ManagerState) (id line : String)
    (stream : StreamKind) (inst : RunnableInstance) (bufs : RunnableBuffers)
    (p : String → Bool)
    (hinst : alGet st.instances id = some inst)
    (hbufs : alGet st.outputBuffers id = some bufs)
    (hready : inst.definition.readyWhen = some p)
    (hstarting : inst.status = RunnableStatus.starting) :
    (p (stripAnsi (String.intercalate "\n" ((bufs.output.push line).toArray))) = true →
        statusOf (addOutput st id line stream).1 id = some RunnableStatus.running
        ∧ (addOutput st id line stream).2
            = [ManagerEvent.output id line stream,
               ManagerEvent.statusChange id RunnableStatus.running none])
    ∧ (p (stripAnsi (String.intercalate "\n" ((bufs.output.push line).toArray))) = false →
        statusOf (addOutput st id line stream).1 id = some RunnableStatus.starting
        ∧ (addOutput st id line stream).2 = [ManagerEvent.output id line stream])
    ∧ (∀ params : List Char, (∀ c ∈ params, isSgrParamChar c = true) →
        ∀ s : String, p (stripAnsi (mkSgrSeq params ++ s)) = p (stripAnsi s)) := by
  have hout : ∀ bufs2 : RunnableBuffers,
      getOutputLinesAll { st with outputBuffers := alSet st.outputBuffers id bufs2 } id
        = bufs2.output.toArray := by
    intro bufs2
    simp [getOutputLinesAll, alGet_alSet_eq]
  refine ⟨?_, ?_, ?_⟩
  · intro htrue
    cases stream <;>
      simp [addOutput, hinst, hbufs, hstarting, hready, hout, htrue, setStatusFn,
        alGet_alSet_eq, statusOf]
  · intro hfalse
    cases stream <;>
      simp [addOutput, hinst, hbufs, hstarting, hready, hout, hfalse, setStatusFn,
        alGet_alSet_eq, statusOf, hinst]
  · intro params hparams s
    rw [stripAnsi_sgr_prepend params s hparams]

/-- C3 witness: the line `hi` makes `readyWhen` fire and the instance
becomes `running`, with the output event preceding the status change. -/
theorem spin_c3_ready_detection_witness :
    statusOf (addOutput cexSt "db" "hi" StreamKind.stdout).1 "db"
        = some RunnableStatus.running
    ∧ (addOutput cexSt "db" "hi" StreamKind.stdout).2
        = [ManagerEvent.output "db" "hi" StreamKind.stdout,
           ManagerEvent.statusChange "db" RunnableStatus.running none] :=
  (spin_c3_ready_detection cexSt "db" "hi" StreamKind.stdout cexInst cexBufs cexReadyWhen
    rfl rfl rfl rfl).1 (by decide)

/-- C3 counterexample: the line `h<ESC>[2Ki` contains a non-SGR ANSI
escape sequence (`ESC [2K`, erase-line).  Stripped of all ANSI escape
sequences the text is `hi` and the predicate matches, but the source's
`stripAnsi` removes only `m`-terminated colour sequences, so the
predicate sees the escape bytes and the instance stays `starting`. -/
theorem spin_c3_counterexample :
    cexReadyWhen (stripAnsiSpec (String.intercalate "\n"
        ((cexBufs.output.push "h\x1b[2Ki").toArray))) = true
    ∧ statusOf (addOutput cexSt "db" "h\x1b[2Ki" StreamKind.stdout).1 "db"
        = some RunnableStatus.starting := by
  exact ⟨by decide, by decide⟩

/-- C7: the spawn environment built by the source contains no
contribution from dependencies.  With a dependency publishing
`API_PORT=3000` (as the README's `onReady`/`setEnv` documents), the
claimed merge contains `API_PORT` while the actual merge does not; the
unconditional `FORCE_COLOR=1` is present in both. -/
theorem spin_c7_no_inherited_env :
    alGet (spawnEnv [("PATH", "/usr/bin")] [] [("PORT", "3000")]) "API_PORT" = none
    ∧ alGet (spawnEnvClaim [("PATH", "/usr/bin")] [] [("PORT", "3000")]
        [("API_PORT", "3000")]) "API_PORT" = some "3000"
    ∧ alGet (spawnEnv [("PATH", "/usr/bin")] [] [("PORT", "3000")]) "FORCE_COLOR"
        = some "1"
    ∧ alGet (spawnEnv [("PATH", "/usr/bin")] [] [("PORT", "3000")]) "PORT"
        = some "3000" := by
  decide

theorem scriptRunnerOutput_replicate :
    ∀ (n : Nat) (acc : List String),
      (List.replicate n "x").foldl scriptRunnerIngestChunk acc
        = acc ++ List.replicate n "x" := by
  intro n
  induction n with
  | zero => intro acc; simp
  | succ m ih =>
    intro acc
    rw [List.replicate_succ, List.foldl_cons, ih]
    have hline : scriptRunnerIngestChunk acc "x" = acc ++ ["x"] := by
      have hsplit : ((splitCharsOnNL "x".data).map (fun cs => String.mk cs)).filter
          (fun line => line != "") = ["x"] := by decide
      simp [scriptRunnerIngestChunk, hsplit]
    rw [hline]
    simp

/-- C9: the ephemeral command runner stores every non-empty output line
without any cap.  A run that emits 1001 single-line chunks stores 1001
lines, exceeding `maxOutputLines` (default 1000), contradicting the
mandated bound. -/
theorem spin_c9_output_uncapped :
    (scriptRunnerOutput (List.replicate 1001 "x")).length = 1001
    ∧ ¬ (scriptRunnerOutput (List.replicate 1001 "x")).length ≤ MAX_OUTPUT_LINES := by
  have h : scriptRunnerOutput (List.replicate 1001 "x") = [] ++ List.replicate 1001 "x" :=
    scriptRunnerOutput_replicate 1001 []
  rw [List.nil_append] at h
  rw [h, List.length_replicate]
  exact ⟨rfl, by decide⟩

example : levenshteinDist "kitten" "sitting" = 3 := by decide

example : levenshteinDist "api" "apy" = 1 := by decide

example : levenshteinDist "" "abc" = 3 := by decide

theorem mem_setAdd_self (l : List String) (x : String) : x ∈ setAdd l x := by
  unfold setAdd
  by_cases h : x ∈ l
  · simp [h]
  · simp [h]

theorem subset_setAdd (l : List String) (x : String) : l ⊆ setAdd l x := by
  unfold setAdd
  by_cases h : x ∈ l
  · simp [h]
  · rw [if_neg (by simpa using h)]
    exact List.subset_append_left l [x]

theorem nodup_setAdd (l : List String) (x : String) (h : l.Nodup) :
    (setAdd l x).Nodup := by
  unfold setAdd
  by_cases hx : x ∈ l
  · simpa [hx] using h
  · simp [hx, List.nodup_append, h]

/-- Accumulator facts preserved by the group-member loop. -/
theorem groupFold_preserve (config : SpinConfig) (name : String) (group : List String)
    (acc : List String × List String) :
    acc.1 ⊆ (group.foldl
      (fun acc2 serviceId =>
        match alGet config.runnables serviceId with
        | some _ => (setAdd acc2.1 serviceId, acc2.2)
        | none => (acc2.1, acc2.2 ++ [groupErrMsg name serviceId]))
      acc).1
    ∧ acc.2 ⊆ (group.foldl
      (fun acc2 serviceId =>
        match alGet config.runnables serviceId with
        | some _ => (setAdd acc2.1 serviceId, acc2.2)
        | none => (acc2.1, acc2.2 ++ [groupErrMsg name serviceId]))
      acc).2 := by
  refine foldl_preserve (fun a => acc.1 ⊆ a.1 ∧ acc.2 ⊆ a.2) _ group acc
    ⟨List.Subset.refl _, List.Subset.refl _⟩ ?_
  intro a sid _ ⟨h1, h2⟩
  cases hr : alGet config.runnables sid with
  | some d => exact ⟨h1.trans (subset_setAdd a.1 sid), h2⟩
  | none => exact ⟨h1, h2.trans (List.subset_append_left _ _)⟩

theorem resolveStep_mono (config : SpinConfig) (acc : List String × List String)
    (name : String) :
    acc.1 ⊆ (resolveStep config acc name).1 ∧ acc.2 ⊆ (resolveStep config acc name).2 := by
  unfold resolveStep
  cases hg : alGet config.groups name with
  | some group => exact groupFold_preserve config name group acc
  | none =>
    cases hr : alGet config.runnables name with
    | some d => exact ⟨subset_setAdd acc.1 name, List.Subset.refl _⟩
    | none => exact ⟨List.Subset.refl _, List.subset_append_left _ _⟩

theorem resolveFold_mono (config : SpinConfig) (names : List String)
    (acc : List String × List String) :
    acc.1 ⊆ (names.foldl (resolveStep config) acc).1
    ∧ acc.2 ⊆ (names.foldl (resolveStep config) acc).2 := by
  refine foldl_preserve (fun a => acc.1 ⊆ a.1 ∧ acc.2 ⊆ a.2) _ names acc
    ⟨List.Subset.refl _, List.Subset.refl _⟩ ?_
  intro a nm _ ⟨h1, h2⟩
  obtain ⟨m1, m2⟩ := resolveStep_mono config a nm
  exact ⟨h1.trans m1, h2.trans m2⟩

theorem resolveStep_nodup (config : SpinConfig) (acc : List String × List String)
    (name : String) (h : acc.1.Nodup) : (resolveStep config acc name).1.Nodup := by
  unfold resolveStep
  cases hg : alGet config.groups name with
  | some group =>
    refine foldl_preserve (fun a => a.1.Nodup) _ group acc h ?_
    intro a sid _ ha
    cases hr : alGet config.runnables sid with
    | some d => exact nodup_setAdd a.1 sid ha
    | none => exact ha
  | none =>
    cases hr : alGet config.runnables name with
    | some d => exact nodup_setAdd acc.1 name h
    | none => exact h

/-- The contribution of resolving one group member. -/
theorem groupFold_contrib (config : SpinConfig) (name : String) (group : List String) :
    ∀ (acc : List String × List String) (sid : String), sid ∈ group →
      let r := group.foldl
        (fun acc2 serviceId =>
          match alGet config.runnables serviceId with
          | some _ => (setAdd acc2.1 serviceId, acc2.2)
          | none => (acc2.1, acc2.2 ++ [groupErrMsg name serviceId]))
        acc
      ((alGet config.runnables sid).isSome = true → sid ∈ r.1)
      ∧ (alGet config.runnables sid = none → groupErrMsg name sid ∈ r.2) := by
  induction group with
  | nil => intro acc sid h; simp at h
  | cons sid' rest ih =>
    intro acc sid hmem
    rw [List.foldl_cons]
    rcases List.mem_cons.mp hmem with rfl | htail
    · constructor
      · intro hsome
        obtain ⟨d, hd⟩ := Option.isSome_iff_exists.mp hsome
        have hstep : sid ∈ (setAdd acc.1 sid) := mem_setAdd_self acc.1 sid
        have hmono := (groupFold_preserve config name rest
          (match alGet config.runnables sid with
            | some _ => (setAdd acc.1 sid, acc.2)
            | none => (acc.1, acc.2 ++ [groupErrMsg name sid]))).1
        rw [hd] at hmono ⊢
        exact hmono hstep
      · intro hnone
        have hstep : groupErrMsg name sid ∈ acc.2 ++ [groupErrMsg name sid] := by simp
        have hmono := (groupFold_preserve config name rest
          (match alGet config.runnables sid with
            | some _ => (setAdd acc.1 sid, acc.2)
            | none => (acc.1, acc.2 ++ [groupErrMsg name sid]))).2
        rw [hnone] at hmono ⊢
        exact hmono hstep
    · exact ih _ sid htail

/-- Facts established by resolving one name survive the remaining fold. -/
theorem resolveFold_contrib (config : SpinConfig) :
    ∀ (names : List String) (acc : List String × List String) (name : String),
      name ∈ names →
      let r := names.foldl (resolveStep config) acc
      (∀ group, alGet config.groups name = some group →
        ∀ sid ∈ group,
          ((alGet config.runnables sid).isSome = true → sid ∈ r.1)
          ∧ (alGet config.runnables sid = none → groupErrMsg name sid ∈ r.2))
      ∧ (alGet config.groups name = none →
          (alGet config.runnables name).isSome = true → name ∈ r.1)
      ∧ (alGet config.groups name = none →
          alGet config.runnables name = none →
          unknownTargetMsg name (findSimilar name ((config.runnables.map Prod.fst)
            ++ (config.groups.map Prod.fst))) ∈ r.2) := by
  intro names
  induction names with
  | nil => intro acc name h; simp at h
  | cons nm rest ih =>
    intro acc name hmem
    rw [List.foldl_cons]
    rcases List.mem_cons.mp hmem with rfl | htail
    · obtain ⟨mono1, mono2⟩ := resolveFold_mono config rest (resolveStep config acc name)
      refine ⟨?_, ?_, ?_⟩
      · intro group hg sid hsid
        have hc := groupFold_contrib config name group acc sid hsid
        constructor
        · intro hsome
          refine mono1 ?_
          have : (resolveStep config acc name).1 = (group.foldl
              (fun acc2 serviceId =>
                match alGet config.runnables serviceId with
                | some _ => (setAdd acc2.1 serviceId, acc2.2)
                | none => (acc2.1, acc2.2 ++ [groupErrMsg name serviceId]))
              acc).1 := by
            unfold resolveStep
            rw [hg]
          rw [this]
          exact hc.1 hsome
        · intro hnone
          refine mono2 ?_
          have : (resolveStep config acc name).2 = (group.foldl
              (fun acc2 serviceId =>
                match alGet config.runnables serviceId with
                | some _ => (setAdd acc2.1 serviceId, acc2.2)
                | none => (acc2.1, acc2.2 ++ [groupErrMsg name serviceId]))
              acc).2 := by
            unfold resolveStep
            rw [hg]
          rw [this]
          exact hc.2 hnone
      · intro hg hsome
        refine mono1 ?_
        obtain ⟨d, hd⟩ := Option.isSome_iff_exists.mp hsome
        have : (resolveStep config acc name).1 = setAdd acc.1 name := by
          unfold resolveStep
          rw [hg, hd]
        rw [this]
        exact mem_setAdd_self acc.1 name
      · intro hg hnone
        refine mono2 ?_
        have : (resolveStep config acc name).2 = acc.2 ++ [unknownTargetMsg name
            (findSimilar name ((config.runnables.map Prod.fst)
              ++ (config.groups.map Prod.fst)))] := by
          unfold resolveStep
          rw [hg, hnone]
        rw [this]
        simp
    · exact ih (resolveStep config acc nm) name htail

theorem findSimilarStep_preserve (input : String) (cands : List String)
    (c : String) (hc : c ∈ cands) (a : Option String × Option Nat)
    (ha : findSimilarInv input cands a) :
    findSimilarInv input cands (findSimilarStep input a c) := by
  unfold findSimilarStep
  by_cases hcond : ((match a.2 with
      | none => true
      | some bd => decide (levenshteinDist (jsToLower input) (jsToLower c) < bd))
      && decide (levenshteinDist (jsToLower input) (jsToLower c) ≤ 3)) = true
  · rw [if_pos hcond]
    have h2 : decide (levenshteinDist (jsToLower input) (jsToLower c) ≤ 3) = true := by
      simp only [Bool.and_eq_true] at hcond
      exact hcond.2
    exact ⟨hc, rfl, of_decide_eq_true h2⟩
  · rw [if_neg hcond]
    exact ha

theorem findSimilar_spec (input : String) (cands : List String) (sugg : String)
    (h : findSimilar input cands = some sugg) :
    sugg ∈ cands
    ∧ (jsStartsWith (jsToLower sugg) (jsToLower input)
        || jsStartsWith (jsToLower input) (jsToLower sugg)
        || decide (levenshteinDist (jsToLower input) (jsToLower sugg) ≤ 3)) = true := by
  simp only [findSimilar] at h
  cases hf : cands.find? (fun c =>
      jsStartsWith (jsToLower c) (jsToLower input)
      || jsStartsWith (jsToLower input) (jsToLower c)) with
  | some m =>
    rw [hf] at h
    have hm : m = sugg := Option.some.inj h
    subst hm
    have hmem : m ∈ cands := List.mem_of_find?_eq_some hf
    have hpred := List.find?_some hf
    refine ⟨hmem, ?_⟩
    rcases (by simpa using hpred :
        jsStartsWith (jsToLower m) (jsToLower input) = true
        ∨ jsStartsWith (jsToLower input) (jsToLower m) = true) with hp | hp <;> simp [hp]
  | none =>
    rw [hf] at h
    have hP : findSimilarInv input cands (cands.foldl (findSimilarStep input) (none, none)) :=
      foldl_preserve (findSimilarInv input cands) (findSimilarStep input) cands (none, none)
        trivial (fun a c hc ha => findSimilarStep_preserve input cands c hc a ha)
    rcases hfold : cands.foldl (findSimilarStep input) (none, none) with ⟨o1, o2⟩
    rw [hfold] at h hP
    cases o1 with
    | none => simp at h
    | some s =>
      have hs : s = sugg := Option.some.inj h
      subst hs
      cases o2 with
      | none => exact absurd hP (by simp [findSimilarInv])
      | some d =>
        obtain ⟨hmem, hd, hle⟩ := hP
        subst hd
        refine ⟨hmem, ?_⟩
        simp [hle]

/-- C8: target resolution adds every valid id of a matching group (with a
`Group X references unknown service Y` error for each unknown id in the
group), otherwise the id of a matching runnable, otherwise an
`Unknown target` error whose suggestion comes from a prefix match first
and then from a Levenshtein distance of at most 3 over known runnable ids
and group names; the returned target list has no duplicates. -/
theorem spin_c8_target_resolution (names : List String) (config : SpinConfig) :
    (resolveTargets names config).1.Nodup
    ∧ (∀ name ∈ names, ∀ group, alGet config.groups name = some group →
        ∀ sid ∈ group,
          ((alGet config.runnables sid).isSome = true →
              sid ∈ (resolveTargets names config).1)
          ∧ (alGet config.runnables sid = none →
              groupErrMsg name sid ∈ (resolveTargets names config).2))
    ∧ (∀ name ∈ names, alGet config.groups name = none →
        (alGet config.runnables name).isSome = true →
        name ∈ (resolveTargets names config).1)
    ∧ (∀ name ∈ names, alGet config.groups name = none →
        alGet config.runnables name = none →
        unknownTargetMsg name (findSimilar name ((config.runnables.map Prod.fst)
          ++ (config.groups.map Prod.fst))) ∈ (resolveTargets names config).2)
    ∧ (∀ (input : String) (cands : List String) (sugg : String),
        findSimilar input cands = some sugg →
          sugg ∈ cands
          ∧ (jsStartsWith (jsToLower sugg) (jsToLower input)
              || jsStartsWith (jsToLower input) (jsToLower sugg)
              || decide (levenshteinDist (jsToLower input) (jsToLower sugg) ≤ 3)) = true) := by
  refine ⟨?_, ?_, ?_, ?_, ?_⟩
  · exact foldl_preserve (fun a => a.1.Nodup) (resolveStep config) names ([], [])
      List.nodup_nil (fun a nm _ ha => resolveStep_nodup config a nm ha)
  · intro name hmem group hg sid hsid
    exact (resolveFold_contrib config names ([], []) name hmem).1 group hg sid hsid
  · intro name hmem hg hs
    exact (resolveFold_contrib config names ([], []) name hmem).2.1 hg hs
  · intro name hmem hg hn
    exact (resolveFold_contrib config names ([], []) name hmem).2.2 hg hn
  · exact fun input cands sugg h => findSimilar_spec input cands sugg h

/-- C8 witness: resolving `["dev", "webz"]` against a config where group
`dev = [api, bogus]`: `api` is added, `bogus` yields a group error, and
`webz` yields an unknown-target error with suggestion `web`. -/
theorem spin_c8_target_resolution_witness :
    "api" ∈ (resolveTargets ["dev", "webz"] witConfig).1
    ∧ groupErrMsg "dev" "bogus" ∈ (resolveTargets ["dev", "webz"] witConfig).2
    ∧ unknownTargetMsg "webz" (findSimilar "webz" ((witConfig.runnables.map Prod.fst)
        ++ (witConfig.groups.map Prod.fst))) ∈ (resolveTargets ["dev", "webz"] witConfig).2 := by
  have h := spin_c8_target_resolution ["dev", "webz"] witConfig
  refine ⟨?_, ?_, ?_⟩
  · exact (h.2.1 "dev" (by decide) ["api", "bogus"] rfl "api" (by decide)).1 rfl
  · exact (h.2.1 "dev" (by decide) ["api", "bogus"] rfl "bogus" (by decide)).2 rfl
  · exact h.2.2.2.1 "webz" (by decide) rfl rfl

/-! ## Dependency watcher (src/src/runnables/manager.ts,
`setupDependencyWatcher`, `startWithDeps`) -/

theorem alGet_mem {α : Type} (l : List (String × α)) (k : String) (v : α)
    (h : alGet l k = some v) : (k, v) ∈ l := by
  induction l with
  | nil => simp [alGet, List.find?] at h
  | cons p rest ih =>
    by_cases hp : p.1 = k
    · have hb : (p.1 == k) = true := by simpa using hp
      simp only [alGet, List.find?, hb] at h
      have hv : p.2 = v := by simpa using h
      have hkv : (k, v) = p := by rw [← hp, ← hv]
      rw [hkv]
      exact List.mem_cons_self p rest
    · have hb : (p.1 == k) = false := by simpa using hp
      simp only [alGet, List.find?, hb] at h
      exact List.mem_cons_of_mem p (ih h)

theorem alGet_isSome_of_mem_keys {α : Type} (l : List (String × α)) (k : String)
    (h : k ∈ l.map Prod.fst) : ∃ v, alGet l k = some v := by
  induction l with
  | nil => simp at h
  | cons p rest ih =>
    by_cases hp : p.1 = k
    · have hb : (p.1 == k) = true := by simpa using hp
      exact ⟨p.2, by simp [alGet, List.find?, hb]⟩
    · have hb : (p.1 == k) = false := by simpa using hp
      have h' : k ∈ rest.map Prod.fst := by
        rcases List.mem_map.mp h with ⟨q, hq, hqk⟩
        rcases List.mem_cons.mp hq with rfl | hq'
        · exact absurd hqk hp
        · exact hqk ▸ List.mem_map_of_mem Prod.fst hq'
      obtain ⟨v, hv⟩ := ih h'
      exact ⟨v, by simpa [alGet, List.find?, hb] using hv⟩

theorem start_instances (cur : ManagerState) (id : String) (inst' : RunnableInstance)
    (h : alGet cur.instances id = some inst')
    (hnr : inst'.status ≠ RunnableStatus.running)
    (hns : inst'.status ≠ RunnableStatus.starting)
    (hcmd : inst'.definition.command ≠ "") :
    (start cur id).state.instances
      = alSet (alSet cur.instances id
          { inst' with status := RunnableStatus.starting, error := none })
        id
        { inst' with status := RunnableStatus.starting, error := none, process := true } := by
  have hcond : ¬(inst'.status = RunnableStatus.running
      ∨ inst'.status = RunnableStatus.starting) := by
    simp [hnr, hns]
  cases hb : alGet cur.outputBuffers id with
  | none => simp [start, setStatusFn, h, hcond, hcmd, hb, alGet_alSet_eq]
  | some bufs => simp [start, setStatusFn, h, hcond, hcmd, hb, alGet_alSet_eq]

theorem watcherInv_depRunning (st : ManagerState) (cid : String)
    (processed : List String) (acc : ManagerState × List String)
    (hInv : WatcherInv st cid processed acc) :
    ∀ d, depRunning acc.1 d = depRunning st d := by
  intro d
  obtain ⟨hsub, hstarted, hkeep, hproc, hkeys⟩ := hInv
  by_cases hd : d ∈ acc.2
  · obtain ⟨i0, h0, hready, hmod⟩ := hstarted d hd
    obtain ⟨hw, _, _⟩ := hready
    unfold depRunning
    rw [h0, hmod]
    simp [modInst, hw]
  · unfold depRunning
    rw [hkeep d hd]

theorem watcherFold_inv (st : ManagerState) (cid : String)
    (hnd : (st.instances.map Prod.fst).Nodup)
    (hcmd : ∀ p ∈ st.instances, p.2.definition.command ≠ "") :
    ∀ (ids processed : List String) (acc : ManagerState × List String),
      processed ++ ids = st.instances.map Prod.fst →
      WatcherInv st cid processed acc →
      WatcherInv st cid (processed ++ ids) (ids.foldl (watcherStep cid) acc) := by
  intro ids
  induction ids with
  | nil =>
    intro processed acc heq hInv
    simpa using hInv
  | cons id rest ih =>
    intro processed acc heq hInv
    rw [List.foldl_cons]
    have heq' : (processed ++ [id]) ++ rest = st.instances.map Prod.fst := by
      rw [← heq]
      simp
    have hidkeys : id ∈ st.instances.map Prod.fst := by
      rw [← heq]
      simp
    have hnd' : (processed ++ id :: rest).Nodup := heq ▸ hnd
    have hidproc : id ∉ processed := by
      intro hmem
      have hdisj := (List.nodup_append.mp hnd').2.2
      exact hdisj hmem (List.mem_cons_self id rest)
    obtain ⟨hsub, hstarted, hkeep, hproc, hkeys⟩ := hInv
    have hidacc : id ∉ acc.2 := fun hmem => hidproc (hsub hmem)
    obtain ⟨inst0, hinst0⟩ := alGet_isSome_of_mem_keys st.instances id hidkeys
    have hcurid : alGet acc.1.instances id = some inst0 := by
      rw [hkeep id hidacc]
      exact hinst0
    have hdr := watcherInv_depRunning st cid processed acc
      ⟨hsub, hstarted, hkeep, hproc, hkeys⟩
    have hstep : WatcherInv st cid (processed ++ [id]) (watcherStep cid acc id) := by
      unfold watcherStep
      rw [hcurid]
      dsimp only
      by_cases hc1 : inst0.status = RunnableStatus.waiting
          ∧ (inst0.waitingFor.getD []).contains cid = true
      · rw [if_pos hc1]
        by_cases hc2 : (inst0.waitingFor.getD []).all (depRunning acc.1) = true
        · rw [if_pos hc2]
          have hready : waiterReady st cid inst0 := by
            refine ⟨hc1.1, hc1.2, ?_⟩
            intro d hd
            rw [← hdr d]
            exact List.all_eq_true.mp hc2 d hd
          have hcur1get : alGet (alSet acc.1.instances id
              { inst0 with waitingFor := none }) id
              = some { inst0 with waitingFor := none } := alGet_alSet_eq _ _ _
          have hcmd0 : inst0.definition.command ≠ "" :=
            hcmd (id, inst0) (alGet_mem _ _ _ hinst0)
          have hSI := start_instances
            { acc.1 with instances := (alSet acc.1.instances id
                { inst0 with waitingFor := none }) } id
            { inst0 with waitingFor := none } hcur1get
            (by simp [hc1.1]) (by simp [hc1.1]) (by simpa using hcmd0)
          have hget_self : alGet (start { acc.1 with instances := (alSet acc.1.instances id
              { inst0 with waitingFor := none }) } id).state.instances id
              = some (modInst inst0) := by
            rw [hSI, alGet_alSet_eq]
            rfl
          have hget_other : ∀ k, k ≠ id →
              alGet (start { acc.1 with instances := (alSet acc.1.instances id
                { inst0 with waitingFor := none }) } id).state.instances k
              = alGet acc.1.instances k := by
            intro k hk
            rw [hSI, alGet_alSet_ne _ _ _ _ hk, alGet_alSet_ne _ _ _ _ hk]
            exact alGet_alSet_ne _ _ _ _ hk
          have hidkeysacc : id ∈ acc.1.instances.map Prod.fst := by
            rw [hkeys]
            exact hidkeys
          refine ⟨?_, ?_, ?_, ?_, ?_⟩
          · intro k hk
            rcases List.mem_append.mp hk with hk1 | hk2
            · exact List.mem_append_left [id] (hsub hk1)
            · exact List.mem_append_right processed hk2
          · intro k hk
            rcases List.mem_append.mp hk with hk1 | hk2
            · obtain ⟨i0, h0, hr0, hm0⟩ := hstarted k hk1
              have hkne : k ≠ id := fun hkeq => hidacc (hkeq ▸ hk1)
              exact ⟨i0, h0, hr0, by rw [hget_other k hkne]; exact hm0⟩
            · have hkid : k = id := by simpa using hk2
              subst hkid
              exact ⟨inst0, hinst0, hready, hget_self⟩
          · intro k hk
            have hkne : k ≠ id := fun hkeq => hk (hkeq ▸ List.mem_append_right acc.2 (by simp))
            have hknacc : k ∉ acc.2 := fun hm => hk (List.mem_append_left [id] hm)
            rw [hget_other k hkne]
            exact hkeep k hknacc
          · intro k hkproc hknacc i1 hi1
            rcases List.mem_append.mp hkproc with hk1 | hk2
            · exact hproc k hk1 (fun hm => hknacc (List.mem_append_left [id] hm)) i1 hi1
            · have hkid : k = id := by simpa using hk2
              subst hkid
              exact absurd (List.mem_append_right acc.2 (by simp)) hknacc
          · rw [hSI]
            have hk1 : id ∈ (alSet acc.1.instances id
                { inst0 with waitingFor := none }).map Prod.fst := by
              rw [alSet_keys_of_mem _ _ _ hidkeysacc]
              exact hidkeysacc
            have hk2 : id ∈ (alSet (alSet acc.1.instances id
                { inst0 with waitingFor := none }) id
                { inst0 with waitingFor := none, status := RunnableStatus.starting, error := none }).map Prod.fst := by
              rw [alSet_keys_of_mem _ _ _ hk1]
              exact hk1
            rw [alSet_keys_of_mem _ _ _ hk2, alSet_keys_of_mem _ _ _ hk1,
              alSet_keys_of_mem _ _ _ hidkeysacc]
            exact hkeys
        · rw [if_neg hc2]
          refine ⟨fun k hk => List.mem_append_left [id] (hsub hk), hstarted, hkeep, ?_, hkeys⟩
          intro k hkproc hknacc i1 hi1
          rcases List.mem_append.mp hkproc with hk1 | hk2
          · exact hproc k hk1 hknacc i1 hi1
          · have hkid : k = id := by simpa using hk2
            subst hkid
            have hi0 : i1 = inst0 := by
              rw [hinst0] at hi1
              exact (Option.some.inj hi1).symm
            subst hi0
            intro hready
            apply hc2
            refine List.all_eq_true.mpr ?_
            intro d hd
            rw [hdr d]
            exact hready.2.2 d hd
      · rw [if_neg hc1]
        refine ⟨fun k hk => List.mem_append_left [id] (hsub hk), hstarted, hkeep, ?_, hkeys⟩
        intro k hkproc hknacc i1 hi1
        rcases List.mem_append.mp hkproc with hk1 | hk2
        · exact hproc k hk1 hknacc i1 hi1
        · have hkid : k = id := by simpa using hk2
          subst hkid
          have hi0 : i1 = inst0 := by
            rw [hinst0] at hi1
            exact (Option.some.inj hi1).symm
          subst hi0
          intro hready
          exact hc1 ⟨hready.1, hready.2.1⟩
    have hrest := ih (processed ++ [id]) (watcherStep cid acc id) heq' hstep
    have hl : processed ++ [id] ++ rest = processed ++ id :: rest := by simp
    rw [← hl]
    exact hrest

/-- C2 (amended): if a dependency transitions to `error` or `stopped`
(or anything but `running`), the watcher does nothing, and the gated
start's catch keeps the waiter in `waiting` with `waitingFor` intact;
the recovery watcher is installed at most once per manager instance;
and on every transition to `running` the watcher scans all instances
and, for each waiting instance whose `waitingFor` CONTAINS THE ID THAT
JUST BECAME RUNNING and whose `waitingFor` entries are now all running,
clears `waitingFor` and issues `start` (instances not meeting this
condition — in particular waiters whose `waitingFor` does not contain
the changed id — are left untouched). -/
theorem spin_c2_dependency_watcher (st : ManagerState) (cid : String)
    (hnd : (st.instances.map Prod.fst).Nodup)
    (hcmd : ∀ p ∈ st.instances, p.2.definition.command ≠ "") :
    (∀ status, status ≠ RunnableStatus.running → watcherScan st cid status = (st, []))
    ∧ (∀ id, startWithDepsResume st id false = (st, []))
    ∧ (∀ n, (setupDependencyWatcher^[n]
        { dependencyWatcherSetup := false, watcherCount := 0 }).watcherCount ≤ 1)
    ∧ (∀ id inst, alGet st.instances id = some inst →
        (waiterReady st cid inst →
          id ∈ (watcherScan st cid RunnableStatus.running).2
          ∧ alGet (watcherScan st cid RunnableStatus.running).1.instances id
              = some (modInst inst))
        ∧ (¬ waiterReady st cid inst →
          id ∉ (watcherScan st cid RunnableStatus.running).2
          ∧ alGet (watcherScan st cid RunnableStatus.running).1.instances id
              = some inst)) := by
  have hInit : WatcherInv st cid [] (st, []) := by
    refine ⟨List.nil_subset _, ?_, fun k _ => rfl, ?_, rfl⟩
    · intro k hk
      simp at hk
    · intro k hk
      simp at hk
  have hfin := watcherFold_inv st cid hnd hcmd (st.instances.map Prod.fst) [] (st, [])
    (by simp) hInit
  rw [List.nil_append] at hfin
  have hscan : watcherScan st cid RunnableStatus.running
      = (st.instances.map Prod.fst).foldl (watcherStep cid) (st, []) := by
    rw [watcherScan, if_neg (by simp)]
  obtain ⟨_, hstarted, hkeep, hproc, _⟩ := hfin
  refine ⟨?_, ?_, ?_, ?_⟩
  · intro status hs
    rw [watcherScan, if_pos hs]
  · intro id
    rfl
  · intro n
    cases n with
    | zero => simp
    | succ m =>
      have hfix : setupDependencyWatcher
          { dependencyWatcherSetup := true, watcherCount := 1 }
          = { dependencyWatcherSetup := true, watcherCount := 1 } := rfl
      have h1 : setupDependencyWatcher^[m + 1]
          ({ dependencyWatcherSetup := false, watcherCount := 0 } : WatcherSetupState)
          = setupDependencyWatcher^[m]
            (setupDependencyWatcher { dependencyWatcherSetup := false, watcherCount := 0 }) :=
        Function.iterate_succ_apply setupDependencyWatcher m _
      rw [h1]
      have h2 : setupDependencyWatcher
          ({ dependencyWatcherSetup := false, watcherCount := 0 } : WatcherSetupState)
          = { dependencyWatcherSetup := true, watcherCount := 1 } := rfl
      rw [h2, Function.iterate_fixed hfix m]
  · intro id inst hinst
    have hidkeys : id ∈ st.instances.map Prod.fst :=
      List.mem_map_of_mem Prod.fst (alGet_mem st.instances id inst hinst)
    constructor
    · intro hready
      have hmem : id ∈ ((st.instances.map Prod.fst).foldl (watcherStep cid) (st, [])).2 := by
        by_contra hnot
        exact hproc id hidkeys hnot inst hinst hready
      rw [hscan]
      refine ⟨hmem, ?_⟩
      obtain ⟨i0, h0, _, hmod⟩ := hstarted id hmem
      have : i0 = inst := by
        rw [hinst] at h0
        exact (Option.some.inj h0).symm
      subst this
      exact hmod
    · intro hnready
      have hnot : id ∉ ((st.instances.map Prod.fst).foldl (watcherStep cid) (st, [])).2 := by
        intro hmem
        obtain ⟨i0, h0, hr0, _⟩ := hstarted id hmem
        have : i0 = inst := by
          rw [hinst] at h0
          exact (Option.some.inj h0).symm
        subst this
        exact hnready hr0
      rw [hscan]
      refine ⟨hnot, ?_⟩
      rw [hkeep id hnot]
      exact hinst

/-- C2 witness: when `a` becomes running, the waiter `b` (waiting on
`a`) is started with `waitingFor` cleared; a `status-change` to `error`
does nothing; repeated `setupDependencyWatcher` installs one watcher. -/
theorem spin_c2_dependency_watcher_witness :
    ("b" ∈ (watcherScan c2wSt "a" RunnableStatus.running).2
      ∧ alGet (watcherScan c2wSt "a" RunnableStatus.running).1.instances "b"
          = some (modInst c2wB))
    ∧ watcherScan c2wSt "a" RunnableStatus.error = (c2wSt, [])
    ∧ (setupDependencyWatcher^[5]
        { dependencyWatcherSetup := false, watcherCount := 0 }).watcherCount ≤ 1 := by
  have h := spin_c2_dependency_watcher c2wSt "a" (by decide)
    (by intro p hp; fin_cases hp <;> decide)
  exact ⟨(h.2.2.2 "b" c2wB rfl).1 (by decide), h.1 RunnableStatus.error (by decide),
    h.2.2.1 5⟩

/-- C2 counterexample: `b` is `waiting` and every entry of its
`waitingFor` (namely `a`) is `running`, yet when the unrelated id `c`
becomes `running` the watcher does not start `b` and leaves its
`waitingFor` intact — the code additionally requires `waitingFor` to
contain the id that just became running, which the claim omits. -/
theorem spin_c2_counterexample :
    statusOf c2xSt "b" = some RunnableStatus.waiting
    ∧ (∀ d ∈ (c2wB.waitingFor.getD []), depRunning c2xSt d = true)
    ∧ (watcherScan c2xSt "c" RunnableStatus.running).2 = []
    ∧ waitingForOf (watcherScan c2xSt "c" RunnableStatus.running).1 "b"
        = some (some ["a"]) := by
  refine ⟨by decide, by decide, by decide, by decide⟩

theorem alSet_keys {α : Type} (l : List (String × α)) (k : String) (v : α) :
    (alSet l k v).map Prod.fst
      = if k ∈ l.map Prod.fst then l.map Prod.fst else l.map Prod.fst ++ [k] := by
  induction l with
  | nil => simp [alSet]
  | cons p rest ih =>
    by_cases hp : p.1 = k
    · have hb : (p.1 == k) = true := by simpa using hp
      simp [alSet, hb, hp]
    · have hb : (p.1 == k) = false := by simpa using hp
      simp only [alSet, hb]
      rw [if_neg Bool.false_ne_true, List.map_cons, List.map_cons, ih]
      by_cases hk : k ∈ rest.map Prod.fst
      · rw [if_pos hk, if_pos (show k ∈ p.1 :: rest.map Prod.fst from List.mem_cons_of_mem _ hk)]
      · have hk' : k ∉ p.1 :: rest.map Prod.fst := by
          intro hc
          rcases List.mem_cons.mp hc with hc1 | hc2
          · exact hp hc1.symm
          · exact hk hc2
        rw [if_neg hk, if_neg hk']
        simp

theorem mem_keys_alSet {α : Type} (l : List (String × α)) (k k' : String) (v : α) :
    k' ∈ (alSet l k v).map Prod.fst ↔ k' ∈ l.map Prod.fst ∨ k' = k := by
  rw [alSet_keys]
  by_cases hk : k ∈ l.map Prod.fst
  · simp only [hk, if_true]
    constructor
    · exact fun h => Or.inl h
    · rintro (h | rfl)
      · exact h
      · exact hk
  · simp [hk]

theorem nodup_keys_alSet {α : Type} (l : List (String × α)) (k : String) (v : α)
    (h : (l.map Prod.fst).Nodup) : ((alSet l k v).map Prod.fst).Nodup := by
  rw [alSet_keys]
  by_cases hk : k ∈ l.map Prod.fst
  · simpa [hk] using h
  · simp [hk, List.nodup_append, h]

/-- Keys and membership across a fold of `alSet`s. -/
theorem foldl_alSet_keys {α : Type} (f : String → α) :
    ∀ (l : List String) (m : List (String × α)),
      (m.map Prod.fst).Nodup →
      (((l.foldl (fun acc id => alSet acc id (f id)) m).map Prod.fst).Nodup
        ∧ ∀ k, k ∈ (l.foldl (fun acc id => alSet acc id (f id)) m).map Prod.fst
            ↔ k ∈ m.map Prod.fst ∨ k ∈ l) := by
  intro l
  induction l with
  | nil =>
    intro m hm
    exact ⟨hm, by simp⟩
  | cons id rest ih =>
    intro m hm
    rw [List.foldl_cons]
    obtain ⟨hnd, hiff⟩ := ih (alSet m id (f id)) (nodup_keys_alSet m id (f id) hm)
    refine ⟨hnd, ?_⟩
    intro k
    rw [hiff k, mem_keys_alSet]
    constructor
    · rintro ((h | rfl) | h)
      · exact Or.inl h
      · exact Or.inr (List.mem_cons_self _ _)
      · exact Or.inr (List.mem_cons_of_mem _ h)
    · rintro (h | h)
      · exact Or.inl (Or.inl h)
      · rcases List.mem_cons.mp h with rfl | h'
        · exact Or.inl (Or.inr rfl)
        · exact Or.inr h'

theorem posCount_alSet (l : List (String × Int)) (k : String) (v w : Int)
    (h : alGet l k = some w) (hnd : (l.map Prod.fst).Nodup) :
    posCount (alSet l k v) + (if 0 < w then 1 else 0)
      = posCount l + (if 0 < v then 1 else 0) := by
  induction l with
  | nil => simp [alGet, List.find?] at h
  | cons p rest ih =>
    by_cases hp : p.1 = k
    · have hb : (p.1 == k) = true := by simpa using hp
      have hw : p.2 = w := by simpa [alGet, List.find?, hb] using h
      simp only [alSet, hb]
      rw [if_pos trivial]
      rw [posCount, posCount, List.countP_cons, List.countP_cons, ← hw]
      by_cases h2 : 0 < p.2 <;> by_cases hv : 0 < v <;> simp [h2, hv]
    · have hb : (p.1 == k) = false := by simpa using hp
      have h' : alGet rest k = some w := by simpa [alGet, List.find?, hb] using h
      have hnd' : (rest.map Prod.fst).Nodup := by
        rw [List.map_cons] at hnd
        exact (List.nodup_cons.mp hnd).2
      simp only [alSet, hb]
      rw [if_neg Bool.false_ne_true]
      rw [posCount, posCount, List.countP_cons, List.countP_cons]
      have := ih h' hnd'
      rw [posCount, posCount] at this
      omega

theorem mem_alSet {α : Type} (l : List (String × α)) (k : String) (v : α)
    (g : String × α) (h : g ∈ alSet l k v) : g ∈ l ∨ g = (k, v) := by
  induction l with
  | nil => simpa [alSet] using h
  | cons p rest ih =>
    by_cases hp : p.1 = k
    · have hb : (p.1 == k) = true := by simpa using hp
      simp only [alSet, hb, if_pos rfl] at h
      rcases List.mem_cons.mp h with rfl | h'
      · exact Or.inr rfl
      · exact Or.inl (List.mem_cons_of_mem p h')
    · have hb : (p.1 == k) = false := by simpa using hp
      simp only [alSet, hb] at h
      rw [if_neg Bool.false_ne_true] at h
      rcases List.mem_cons.mp h with rfl | h'
      · exact Or.inl (List.mem_cons_self _ _)
      · rcases ih h' with h2 | h2
        · exact Or.inl (List.mem_cons_of_mem p h2)
        · exact Or.inr h2

theorem alPush_values (P : String → Prop) :
    ∀ (l : List (String × List String)) (k x : String),
      (∀ g ∈ l, ∀ v ∈ g.2, P v) → P x →
      ∀ g ∈ alPush l k x, ∀ v ∈ g.2, P v := by
  intro l
  induction l with
  | nil => intro k x _ _ g hg; simp [alPush] at hg
  | cons p rest ih =>
    intro k x hl hx g hg
    by_cases hp : p.1 = k
    · have hb : (p.1 == k) = true := by simpa using hp
      simp only [alPush, hb, if_pos rfl] at hg
      rcases List.mem_cons.mp hg with rfl | h'
      · intro v hv
        rcases List.mem_append.mp hv with h2 | h2
        · exact hl p (List.mem_cons_self p rest) v h2
        · have : v = x := by simpa using h2
          exact this ▸ hx
      · exact hl g (List.mem_cons_of_mem p h')
    · have hb : (p.1 == k) = false := by simpa using hp
      simp only [alPush, hb] at hg
      rw [if_neg Bool.false_ne_true] at hg
      rcases List.mem_cons.mp hg with rfl | h'
      · exact hl g (List.mem_cons_self g rest)
      · exact ih k x (fun q hq => hl q (List.mem_cons_of_mem p hq)) hx g h'

theorem buildGraph_values (st : ManagerState) (ids : List String) :
    ∀ g ∈ buildGraph st ids, ∀ v ∈ g.2, v ∈ ids := by
  unfold buildGraph
  have hbase : ∀ g ∈ ids.foldl (fun g id => alSet g id ([] : List String)) [],
      ∀ v ∈ g.2, v ∈ ids := by
    refine foldl_preserve (fun gl : List (String × List String) => ∀ g ∈ gl, ∀ v ∈ g.2, v ∈ ids) _ ids []
      (by simp) ?_
    intro a id _ ha g hg v hv
    rcases mem_alSet a id [] g hg with h | h
    · exact ha g h v hv
    · rw [h] at hv
      simp at hv
  refine foldl_preserve (fun gl : List (String × List String) => ∀ g ∈ gl, ∀ v ∈ g.2, v ∈ ids) _ ids _ hbase ?_
  intro a id hid ha
  refine foldl_preserve (fun gl : List (String × List String) => ∀ g ∈ gl, ∀ v ∈ g.2, v ∈ ids) _ (instDeps st id) a ha ?_
  intro b dep _ hb
  exact alPush_values (· ∈ ids) b dep id hb hid

theorem buildInDeg_keys (st : ManagerState) (ids : List String) :
    ((buildInDeg st ids).map Prod.fst).Nodup
    ∧ ∀ k, k ∈ (buildInDeg st ids).map Prod.fst ↔ k ∈ ids := by
  obtain ⟨hn1, hi1⟩ := foldl_alSet_keys (fun _ => (0 : Int)) ids [] (by simp)
  obtain ⟨hn2, hi2⟩ := foldl_alSet_keys (fun id => ((instDeps st id).length : Int)) ids
    (ids.foldl (fun m id => alSet m id (0 : Int)) []) hn1
  refine ⟨hn2, fun k => ?_⟩
  rw [buildInDeg]
  rw [hi2 k, hi1 k]
  simp

theorem kahnDecStep_fold :
    ∀ (dependents : List String) (inDeg : List (String × Int)) (q : List String),
      (inDeg.map Prod.fst).Nodup →
      (∀ d ∈ dependents, d ∈ inDeg.map Prod.fst) →
      ((dependents.foldl kahnDecStep (inDeg, q)).1.map Prod.fst = inDeg.map Prod.fst
        ∧ posCount (dependents.foldl kahnDecStep (inDeg, q)).1
            + (dependents.foldl kahnDecStep (inDeg, q)).2.length
          = posCount inDeg + q.length) := by
  intro dependents
  induction dependents with
  | nil =>
    intro inDeg q hnd _
    exact ⟨rfl, rfl⟩
  | cons d rest ih =>
    intro inDeg q hnd hmem
    rw [List.foldl_cons]
    have hd : d ∈ inDeg.map Prod.fst := hmem d (List.mem_cons_self d rest)
    obtain ⟨w, hw⟩ := alGet_isSome_of_mem_keys inDeg d hd
    have hkeys : (alSet inDeg d (w - 1)).map Prod.fst = inDeg.map Prod.fst :=
      alSet_keys_of_mem _ _ _ hd
    have hpos := posCount_alSet inDeg d (w - 1) w hw hnd
    have hnd2 : ((alSet inDeg d (w - 1)).map Prod.fst).Nodup := by
      rw [hkeys]
      exact hnd
    have hmem2 : ∀ x ∈ rest, x ∈ (alSet inDeg d (w - 1)).map Prod.fst := by
      intro x hx
      rw [hkeys]
      exact hmem x (List.mem_cons_of_mem d hx)
    have hstep : kahnDecStep (inDeg, q) d
        = if w - 1 = 0 then (alSet inDeg d (w - 1), q ++ [d])
          else (alSet inDeg d (w - 1), q) := by
      unfold kahnDecStep
      rw [hw]
      simp only [Option.getD_some]
    rw [hstep]
    by_cases hz : w - 1 = 0
    · rw [if_pos hz]
      obtain ⟨k1, k2⟩ := ih (alSet inDeg d (w - 1)) (q ++ [d]) hnd2 hmem2
      refine ⟨by rw [k1, hkeys], ?_⟩
      rw [k2]
      have hlen : (q ++ [d]).length = q.length + 1 := by simp
      rw [hlen]
      have : posCount (alSet inDeg d (w - 1)) + 1 = posCount inDeg := by
        split_ifs at hpos <;> omega
      omega
    · rw [if_neg hz]
      obtain ⟨k1, k2⟩ := ih (alSet inDeg d (w - 1)) q hnd2 hmem2
      refine ⟨by rw [k1, hkeys], ?_⟩
      rw [k2]
      have : posCount (alSet inDeg d (w - 1)) = posCount inDeg := by
        split_ifs at hpos <;> omega
      omega

theorem kahnLoop_drains (graph : List (String × List String)) (ids : List String)
    (hvals : ∀ g ∈ graph, ∀ v ∈ g.2, v ∈ ids) :
    ∀ (fuel : Nat) (queue sorted : List String) (inDeg : List (String × Int)),
      (inDeg.map Prod.fst).Nodup →
      (∀ k ∈ ids, k ∈ inDeg.map Prod.fst) →
      queue.length + posCount inDeg ≤ fuel →
      (kahnLoop graph fuel queue sorted inDeg).2.2 = [] := by
  intro fuel
  induction fuel with
  | zero =>
    intro queue sorted inDeg _ _ hle
    have hq : queue = [] := List.length_eq_zero.mp (by omega)
    subst hq
    rfl
  | succ fuel ih =>
    intro queue sorted inDeg hnd hkeys hle
    cases queue with
    | nil => rfl
    | cons current rest =>
      have hdeps : ∀ d ∈ (alGet graph current).getD [], d ∈ inDeg.map Prod.fst := by
        intro d hd
        cases hg : alGet graph current with
        | none =>
          rw [hg] at hd
          simp at hd
        | some vs =>
          rw [hg] at hd
          simp only [Option.getD_some] at hd
          exact hkeys d (hvals (current, vs) (alGet_mem _ _ _ hg) d hd)
      obtain ⟨k1, k2⟩ := kahnDecStep_fold ((alGet graph current).getD []) inDeg [] hnd hdeps
      simp only [kahnLoop]
      apply ih
      · rw [k1]
        exact hnd
      · intro k hk
        rw [k1]
        exact hkeys k hk
      · simp only [List.length_append]
        simp only [List.length_nil, Nat.add_zero] at k2
        have hle' : rest.length + 1 + posCount inDeg ≤ fuel + 1 := by
          simpa using hle
        omega

theorem firstUnknownDepAux_found (st : ManagerState) :
    ∀ idsL : List String,
      (∃ id ∈ idsL, ∃ dep ∈ instDeps st id, (instIds st).contains dep = false) →
      ∃ id dep, firstUnknownDepAux st idsL = some (id, dep)
        ∧ dep ∈ instDeps st id ∧ (instIds st).contains dep = false := by
  intro idsL
  induction idsL with
  | nil =>
    rintro ⟨id, hid, -⟩
    simp at hid
  | cons id0 rest ih =>
    rintro ⟨id, hid, dep, hdep, hcon⟩
    cases hf : (instDeps st id0).find? (fun dep => !((instIds st).contains dep)) with
    | some dep0 =>
      refine ⟨id0, dep0, by unfold firstUnknownDepAux; rw [hf], List.mem_of_find?_eq_some hf, ?_⟩
      have := List.find?_some hf
      simpa using this
    | none =>
      have hidrest : id ∈ rest := by
        rcases List.mem_cons.mp hid with rfl | h
        · exfalso
          have hall := List.find?_eq_none.mp hf dep hdep
          have hmem : dep ∈ instIds st := by simpa using hall
          have hnotin : dep ∉ instIds st := by simpa using hcon
          exact hnotin hmem
        · exact h
      obtain ⟨id', dep', heq, hm, hc⟩ := ih ⟨id, hidrest, dep, hdep, hcon⟩
      exact ⟨id', dep', by unfold firstUnknownDepAux; rw [hf, heq], hm, hc⟩

theorem initManager_spec (config : SpinConfig) (ids0 : List String) :
    ((initManager config ids0).instances.map Prod.fst).Nodup
    ∧ ∀ k ∈ (initManager config ids0).instances.map Prod.fst,
        (alGet config.runnables k).isSome = true := by
  unfold initManager
  refine foldl_preserve
    (fun st : ManagerState => (st.instances.map Prod.fst).Nodup
      ∧ ∀ k ∈ st.instances.map Prod.fst, (alGet config.runnables k).isSome = true)
    _ ids0 _ ⟨by simp, by simp⟩ ?_
  intro a id _ ha
  obtain ⟨ha1, ha2⟩ := ha
  cases hd : alGet config.runnables id with
  | none => exact ⟨ha1, ha2⟩
  | some d =>
    refine ⟨nodup_keys_alSet _ _ _ ha1, ?_⟩
    intro k hk
    rcases (mem_keys_alSet a.instances id k _).mp hk with h | rfl
    · exact ha2 k h
    · rw [hd]
      rfl

/-- The fuel given to `kahnLoop` by `getTopologicalOrder` always lets
the queue drain completely, so the fueled loop coincides with the
source's unbounded `while` loop. -/
theorem getTopologicalOrder_queue_drains (st : ManagerState) :
    (kahnLoop (buildGraph st (instIds st))
      (((instIds st).filter
          (fun id => alGet (buildInDeg st (instIds st)) id == some 0)).length
        + posCount (buildInDeg st (instIds st)))
      ((instIds st).filter
        (fun id => alGet (buildInDeg st (instIds st)) id == some 0))
      [] (buildInDeg st (instIds st))).2.2 = [] := by
  obtain ⟨hk1, hk2⟩ := buildInDeg_keys st (instIds st)
  exact kahnLoop_drains (buildGraph st (instIds st)) (instIds st)
    (buildGraph_values st (instIds st)) _ _ [] (buildInDeg st (instIds st))
    hk1 (fun k hk => (hk2 k).mpr hk) (le_refl _)

/-- C1: `startAll` validates before starting anything: a `dependsOn`
entry with no definition produces a fatal config error naming the id,
the dangling dependency and the list of known ids; if Kahn's algorithm
leaves nodes undrained, it fails with `Dependency cycle detected`
listing the remaining ids; in either failure case no `startWithDeps`
is issued, so no child process is spawned. -/
theorem spin_c1_startAll_validation (config : SpinConfig) (ids0 : List String) :
    ((∃ p ∈ (initManager config ids0).instances,
        ∃ dep ∈ p.2.definition.dependsOn, alGet config.runnables dep = none) →
      ∃ id dep, dep ∈ instDeps (initManager config ids0) id
        ∧ (instIds (initManager config ids0)).contains dep = false
        ∧ startAllRun (initManager config ids0)
            = (some (unknownDepMessage id dep (instIds (initManager config ids0))), []))
    ∧ (∀ st : ManagerState,
        firstUnknownDepAux st (instIds st) = none →
        (kahnLoop (buildGraph st (instIds st))
            (((instIds st).filter
                (fun id => alGet (buildInDeg st (instIds st)) id == some 0)).length
              + posCount (buildInDeg st (instIds st)))
            ((instIds st).filter
              (fun id => alGet (buildInDeg st (instIds st)) id == some 0))
            [] (buildInDeg st (instIds st))).1.length ≠ (instIds st).length →
        startAllRun st
          = (some ("Dependency cycle detected: " ++ String.intercalate ", "
              ((instIds st).filter (fun id => decide (0 <
                (alGet (kahnLoop (buildGraph st (instIds st))
                  (((instIds st).filter
                      (fun id => alGet (buildInDeg st (instIds st)) id == some 0)).length
                    + posCount (buildInDeg st (instIds st)))
                  ((instIds st).filter
                    (fun id => alGet (buildInDeg st (instIds st)) id == some 0))
                  [] (buildInDeg st (instIds st))).2.1 id).getD 0)))), []))
    ∧ (∀ st : ManagerState, ∀ e, (startAllRun st).1 = some e → (startAllRun st).2 = []) := by
  refine ⟨?_, ?_, ?_⟩
  · rintro ⟨p, hp, dep, hdep, hnodef⟩
    obtain ⟨hnd, hdef⟩ := initManager_spec config ids0
    have halget : alGet (initManager config ids0).instances p.1 = some p.2 :=
      alGet_of_mem_nodup _ _ _ hp hnd
    have hdep' : dep ∈ instDeps (initManager config ids0) p.1 := by
      rw [instDeps, halget]
      exact hdep
    have hdepnotin : (instIds (initManager config ids0)).contains dep = false := by
      cases hc : (instIds (initManager config ids0)).contains dep with
      | false => rfl
      | true =>
        exfalso
        have hmem : dep ∈ instIds (initManager config ids0) := by simpa using hc
        have := hdef dep hmem
        rw [hnodef] at this
        simp at this
    have hfound := firstUnknownDepAux_found (initManager config ids0)
      (instIds (initManager config ids0))
      ⟨p.1, List.mem_map_of_mem Prod.fst hp, dep, hdep', hdepnotin⟩
    obtain ⟨id', dep', heq, hm, hc⟩ := hfound
    refine ⟨id', dep', hm, hc, ?_⟩
    simp [startAllRun, getTopologicalOrder, heq]
  · intro st hnone hlen
    rw [startAllRun, getTopologicalOrder]
    simp only [hnone]
    rw [if_pos hlen]
  · intro st e he
    unfold startAllRun at he ⊢
    cases h : getTopologicalOrder st with
    | error msg => rfl
    | ok order =>
      rw [h] at he
      simp at he

/-- C1 witness: a single runnable `a` depending on the undefined id
`ghost` makes `startAll` fail with the unknown-dependency config error
and no gated start is issued. -/
theorem spin_c1_startAll_validation_witness :
    ∃ id dep, dep ∈ instDeps (initManager c1Config ["a"]) id
      ∧ (instIds (initManager c1Config ["a"])).contains dep = false
      ∧ startAllRun (initManager c1Config ["a"])
          = (some (unknownDepMessage id dep (instIds (initManager c1Config ["a"]))), []) :=
  (spin_c1_startAll_validation c1Config ["a"]).1
    ⟨("a", { definition := c1Defn, status := RunnableStatus.stopped, error := none, process := false, waitingFor := none }),
      List.Mem.head _, "ghost", List.Mem.head _, rfl⟩

example : startAllRun (initManager c1CycConfig ["a", "b"])
    = (some "Dependency cycle detected: a, b", []) := by decide
